import Mathlib

/-!
Verification of the profit-zone (support/resistance) detector of the
NAS100 trading-assistant repository.

The detector (`detect_profit_zones` in `main.py`, lines 16-35, and the
identical `TradingAssistant.detect_levels` in the secondary variant,
lines 32-51) is embedded as a pure Lean function over exact rationals.
Floating-point arithmetic is idealised as exact rational arithmetic;
the pandas/numpy library calls are embedded with their documented
semantics:

* `df['Range'] = (df['High'] - df['Low']) * 0.5 + df['Low']` writes a
  derived column into the caller's dataframe (an in-place mutation),
  so the frame is threaded explicitly through the embedding.
* `pd.cut(s, bins=50, include_lowest=True)` computes
  `np.linspace(min, max, 51)` and then lowers the first edge by 0.1%
  of the span (right-closed intervals; this is how the minimum gets
  included).  When `min == max` both endpoints are instead first moved
  outwards by 0.1% of their magnitude (by 0.001 when zero).  Values are
  assigned by `searchsorted`: `x` goes to the bin `i` with
  `edge i < x <= edge (i+1)`.  pandas additionally rounds the *printed*
  interval labels to 3 decimals; that display-only rounding is idealised
  away and the exact bin edges are used.
* `df.groupby(bins)['Volume'].sum()` groups by the 50 interval
  categories with the pandas default `observed=False`, so ALL 50 bins
  appear in category (ascending price) order, a bin with no bars
  getting sum 0.  `dropna()` afterwards removes nothing: every group
  key is an interval (so `mid` is never NaN) and every sum is a number.
* `nlargest(3, 'Volume')` / `nsmallest(3, 'Volume')` with the default
  `keep='first'` select rows by repeatedly taking the first row
  attaining the extremal volume.
* Python `sorted` sorts ascending.
* the surrounding `try/except Exception` converts every internal
  failure (`KeyError` for a missing column, `ValueError` from
  `pd.cut` on an empty series) into the result `([], [])` plus an
  error signal (`st.error`), never letting the exception escape.
-/

/-- One OHLCV bar; only the columns the detector reads are modelled. -/
structure Bar where
  high : ℚ
  low : ℚ
  volume : ℚ
deriving DecidableEq

/-- A pandas dataframe as the detector sees it: the bar rows, flags for
the presence of the `High`/`Low`/`Volume` columns, and the derived
`Range` column (absent until the detector writes it). -/
structure Frame where
  bars : List Bar
  hasHigh : Bool
  hasLow : Bool
  hasVolume : Bool
  rangeCol : Option (List ℚ)
deriving DecidableEq

/-- Line 19: `(df['High'] - df['Low']) * 0.5 + df['Low']`, per bar. -/
def rangeValue (b : Bar) : ℚ := (b.high - b.low) * (1/2) + b.low

/-- The derived `Range` column. -/
def rangeList (bars : List Bar) : List ℚ := bars.map rangeValue

/-- Minimum of a list of rationals (0 on `[]`, a case never used). -/
def listMin : List ℚ → ℚ
  | [] => 0
  | x :: xs => xs.foldl min x

/-- Maximum of a list of rationals (0 on `[]`, a case never used). -/
def listMax : List ℚ → ℚ
  | [] => 0
  | x :: xs => xs.foldl max x

/-- `min` of the `Range` column, as `pd.cut` computes it. -/
def rlo (bars : List Bar) : ℚ := listMin (rangeList bars)

/-- `max` of the `Range` column, as `pd.cut` computes it. -/
def rhi (bars : List Bar) : ℚ := listMax (rangeList bars)

/-- pandas' endpoint adjustment for a degenerate (`min == max`) cut:
`0.001 * abs(endpoint)`, or `0.001` when the endpoint is 0. -/
def degenDelta (v : ℚ) : ℚ := if v = 0 then 1/1000 else |v| / 1000

/-- The 51 bin edges of `pd.cut(s, bins=50, include_lowest=True)` for a
column with minimum `lo` and maximum `hi` (pandas `tile.py`): when
`lo == hi` both endpoints are moved outwards by `degenDelta` before
`np.linspace`; otherwise `np.linspace(lo, hi, 51)` is taken and the
first edge is lowered by 0.1% of the span. -/
def edgeF (lo hi : ℚ) (k : ℕ) : ℚ :=
  if lo = hi then
    (lo - degenDelta lo) + k * (((hi + degenDelta hi) - (lo - degenDelta lo)) / 50)
  else
    if k = 0 then lo - (hi - lo) / 1000
    else lo + k * ((hi - lo) / 50)

/-- Edges for a bar series. -/
def edge (bars : List Bar) (k : ℕ) : ℚ := edgeF (rlo bars) (rhi bars) k

/-- Bin index assigned by `pd.cut` to a value `x`: `searchsorted` over
the edges (side `left`) minus one, i.e. the number of edges
`edge 1, ..., edge 50` strictly below `x`.  For `edge 0 < x ≤ edge 50`
this is the unique `i < 50` with `edge i < x ≤ edge (i+1)`. -/
def binIdxF (lo hi : ℚ) (x : ℚ) : ℕ :=
  ((List.range 50).filter (fun j => decide (edgeF lo hi (j+1) < x))).length

/-- Bin index of a value for a bar series. -/
def binIdx (bars : List Bar) (x : ℚ) : ℕ := binIdxF (rlo bars) (rhi bars) x

/-- Lines 22-27, the `Volume` column of
`df.groupby(bins)['Volume'].sum()`: total volume of the bars whose
`Range` value falls in bin `i` (0 when no bar does; with the pandas
default `observed=False` the empty bins are kept). -/
def binVol (bars : List Bar) (i : ℕ) : ℚ :=
  ((bars.filter (fun b => decide (binIdx bars (rangeValue b) = i))).map Bar.volume).sum

/-- Lines 23-25, the `mid` column: `Interval.mid`, the average of the
bin's two edges. -/
def binMid (bars : List Bar) (i : ℕ) : ℚ := (edge bars i + edge bars (i+1)) / 2

/-- Lines 22-27, `valid_profile` as a list of `(mid, volume)` rows in
bin (ascending price) order: all 50 bins, since `dropna()` drops
nothing (no `mid` is NaN and no sum is NaN). -/
def volProfile (bars : List Bar) : List (ℚ × ℚ) :=
  (List.range 50).map (fun i => (binMid bars i, binVol bars i))

/-- The first row of the profile attaining the maximal volume
(`idxmax`-style selection; earlier row wins ties). -/
def firstMax : List (ℚ × ℚ) → Option (ℚ × ℚ)
  | [] => none
  | a :: l =>
    match firstMax l with
    | none => some a
    | some m => if a.2 < m.2 then some m else some a

/-- The first row of the profile attaining the minimal volume. -/
def firstMin : List (ℚ × ℚ) → Option (ℚ × ℚ)
  | [] => none
  | a :: l =>
    match firstMin l with
    | none => some a
    | some m => if m.2 < a.2 then some m else some a

/-- `nlargest(n, 'Volume')` with `keep='first'`: repeatedly take the
first row attaining the maximal volume among the rows left. -/
def selectTop : ℕ → List (ℚ × ℚ) → List (ℚ × ℚ)
  | 0, _ => []
  | n+1, rows =>
    match firstMax rows with
    | none => []
    | some m => m :: selectTop n (rows.erase m)

/-- `nsmallest(n, 'Volume')` with `keep='first'`: repeatedly take the
first row attaining the minimal volume among the rows left. -/
def selectBot : ℕ → List (ℚ × ℚ) → List (ℚ × ℚ)
  | 0, _ => []
  | n+1, rows =>
    match firstMin rows with
    | none => []
    | some m => m :: selectBot n (rows.erase m)

/-- Python `sorted` on numbers: ascending (stable) sort. -/
def pySorted (l : List ℚ) : List ℚ := List.insertionSort (· ≤ ·) l

/-- Lines 18-31, the body of the `try:` block.  An exception is an
`Except.error` carrying the message and the state of the caller's
frame at the moment it is raised (the `Range` column has already been
written if `df['High']` and `df['Low']` both resolved). -/
def detectBody (df : Frame) :
    Except (String × Frame) (Frame × List ℚ × List ℚ) :=
  if !(df.hasHigh && df.hasLow) then
    .error ("KeyError: High/Low", df)
  else
    let df1 : Frame := { df with rangeCol := some (rangeList df.bars) }
    if df.bars.isEmpty then
      .error ("ValueError: cannot cut empty array", df1)
    else if !df.hasVolume then
      .error ("KeyError: Volume", df1)
    else
      let profile := volProfile df.bars
      .ok (df1, pySorted ((selectTop 3 profile).map Prod.fst),
                pySorted ((selectBot 3 profile).map Prod.fst))

/-- Lines 16-35, `detect_profit_zones`: the `try/except` wrapper.
Returns the (possibly mutated) frame, the `(support, resistance)`
pair, and whether an error was signalled via `st.error`. -/
def detect_profit_zones (df : Frame) : Frame × (List ℚ × List ℚ) × Bool :=
  match detectBody df with
  | .ok (df1, s, r) => (df1, (s, r), false)
  | .error (_msg, df1) => (df1, ([], []), true)

/-- `TradingAssistant.detect_levels` (secondary variant, lines 32-51):
same body, different error-message texts. -/
def detectLevelsBody (df : Frame) :
    Except (String × Frame) (Frame × List ℚ × List ℚ) :=
  if !(df.hasHigh && df.hasLow) then
    .error ("Level detection error: KeyError: High/Low", df)
  else
    let df1 : Frame := { df with rangeCol := some (rangeList df.bars) }
    if df.bars.isEmpty then
      .error ("Level detection error: cannot cut empty array", df1)
    else if !df.hasVolume then
      .error ("Level detection error: KeyError: Volume", df1)
    else
      let profile := volProfile df.bars
      .ok (df1, pySorted ((selectTop 3 profile).map Prod.fst),
                pySorted ((selectBot 3 profile).map Prod.fst))

/-- `TradingAssistant.detect_levels`, with its `try/except` wrapper. -/
def detect_levels (df : Frame) : Frame × (List ℚ × List ℚ) × Bool :=
  match detectLevelsBody df with
  | .ok (df1, s, r) => (df1, (s, r), false)
  | .error (_msg, df1) => (df1, ([], []), true)

/-- The number of bins that actually contain at least one bar. -/
def occupiedCount (bars : List Bar) : ℕ :=
  ((List.range 50).filter
    (fun i => decide ((bars.filter (fun b => decide (binIdx bars (rangeValue b) = i))) ≠ []))).length

/-! ### Concrete inputs used in counterexamples and witnesses -/

/-- A single bar matching the spec's formula-check example. -/
def exBar1 : Bar := ⟨18050, 17950, 5000⟩

/-- A one-bar frame with all columns present. -/
def exDf1 : Frame := ⟨[exBar1], true, true, true, none⟩

/-- An empty frame with all columns present. -/
def exEmpty : Frame := ⟨[], true, true, true, none⟩

/-- Fifty bars hitting all fifty bins with one unit of volume each. -/
def bars50 : List Bar := (List.range 50).map (fun i : ℕ => ⟨(i : ℚ), (i : ℚ), 1⟩)

/-- The frame around `bars50`. -/
def exDf50 : Frame := ⟨bars50, true, true, true, none⟩

/-- Seven bars in seven distinct bins, unit volume each. -/
def bars7 : List Bar :=
  [⟨0, 0, 1⟩, ⟨7, 7, 1⟩, ⟨14, 14, 1⟩, ⟨21, 21, 1⟩, ⟨28, 28, 1⟩, ⟨35, 35, 1⟩, ⟨42, 42, 1⟩]

/-- The frame around `bars7`. -/
def exDf7 : Frame := ⟨bars7, true, true, true, none⟩

/-- A second single bar, used for the single-bar-input claim. -/
def exBar2 : Bar := ⟨100, 50, 7⟩

/-- A one-bar frame around `exBar2`. -/
def exDf1b : Frame := ⟨[exBar2], true, true, true, none⟩

/-- A single bar with volume 0 (the spec allows non-negative volume). -/
def exBar0 : Bar := ⟨100, 50, 0⟩

/-! ### C9: the per-bar metric -/

/-- C9: for every bar, the computed `Range` value equals
`low + (high - low) * 0.5`, the bar's midpoint price; in particular a
bar with High 18050 and Low 17950 gets the value 18000 exactly. -/
theorem C9_range_formula :
    (∀ b : Bar, rangeValue b = b.low + (b.high - b.low) * (1/2)) ∧
      rangeValue exBar1 = 18000 := by
  constructor
  · intro b
    unfold rangeValue
    ring
  · unfold rangeValue exBar1
    norm_num

/-! ### Branch lemmas for the detector -/

theorem detect_eq_of_missingHL (df : Frame) (h : (df.hasHigh && df.hasLow) = false) :
    detect_profit_zones df = (df, ([], []), true) := by
  unfold detect_profit_zones detectBody
  rw [h]
  rfl

theorem detect_eq_of_empty (df : Frame) (hH : df.hasHigh = true) (hL : df.hasLow = true)
    (hB : df.bars = []) :
    detect_profit_zones df = ({ df with rangeCol := some [] }, ([], []), true) := by
  unfold detect_profit_zones detectBody
  rw [hH, hL, hB]
  rfl

theorem detect_eq_of_noVolume (df : Frame) (hH : df.hasHigh = true) (hL : df.hasLow = true)
    (hB : df.bars.isEmpty = false) (hV : df.hasVolume = false) :
    detect_profit_zones df =
      ({ df with rangeCol := some (rangeList df.bars) }, ([], []), true) := by
  unfold detect_profit_zones detectBody
  rw [hH, hL, hB, hV]
  rfl

theorem detect_eq_ok (df : Frame) (hH : df.hasHigh = true) (hL : df.hasLow = true)
    (hB : df.bars.isEmpty = false) (hV : df.hasVolume = true) :
    detect_profit_zones df =
      ({ df with rangeCol := some (rangeList df.bars) },
       (pySorted ((selectTop 3 (volProfile df.bars)).map Prod.fst),
        pySorted ((selectBot 3 (volProfile df.bars)).map Prod.fst)), false) := by
  unfold detect_profit_zones detectBody
  rw [hH, hL, hB, hV]
  rfl

/-! ### C2: total error handling at the detector boundary -/

/-- C2: the detector is a total function; whenever the error signal is
raised the levels are exactly `([], [])`, an empty bar series always
yields `([], [])` with the error signalled, and so does any missing
`High`/`Low`/`Volume` column.  (In the embedding every internal
failure of the `try:` body is an `Except.error`, and the `except`
clause of lines 33-35 converts exactly these into `([], [])` plus the
`st.error` signal, so no exception escapes.) -/
theorem C2_error_boundary (df : Frame) :
    ((detect_profit_zones df).2.2 = true → (detect_profit_zones df).2.1 = ([], [])) ∧
      (df.bars = [] → (detect_profit_zones df).2 = (([], []), true)) ∧
      ((df.hasHigh && df.hasLow && df.hasVolume) = false →
        (detect_profit_zones df).2 = (([], []), true)) := by
  obtain ⟨bars, hH, hL, hV, rc⟩ := df
  cases hH <;> cases hL <;> cases hV <;> cases bars <;>
    simp [detect_profit_zones, detectBody]

/-- Witness for C2 at a concrete degenerate input: the empty bar
series yields `([], [])` with the error signalled and no fault. -/
theorem C2_error_boundary_witness :
    (detect_profit_zones exEmpty).2 = (([], []), true) :=
  (C2_error_boundary exEmpty).2.1 rfl

/-! ### C4: the detector mutates the caller's frame -/

/-- C4 counterexample: on a concrete frame without a `Range` column the
detector returns a frame that differs from its input — line 19
(`df['Range'] = ...`) writes the derived column into the caller's
dataframe, so the caller-supplied frame does NOT stay unchanged. -/
theorem C4_counterexample : (detect_profit_zones exDf1).1 ≠ exDf1 := by
  rw [detect_eq_ok exDf1 rfl rfl rfl rfl]
  intro h
  have h2 := congrArg Frame.rangeCol h
  simp [exDf1] at h2

/-- C4 amended: the detector writes the derived `Range` column into the
caller's frame (when the `High` and `Low` columns resolve), but leaves
the bar data and the column flags unchanged, and its
`(support, resistance, error)` output does not depend on any
pre-existing `Range` column — it is a pure function of the bar data
and the column flags (plus the constants 50 and 3). -/
theorem C4_mutation_frame (df : Frame) :
    ((detect_profit_zones df).1.bars = df.bars ∧
      (detect_profit_zones df).1.hasHigh = df.hasHigh ∧
      (detect_profit_zones df).1.hasLow = df.hasLow ∧
      (detect_profit_zones df).1.hasVolume = df.hasVolume) ∧
      (detect_profit_zones df).1.rangeCol =
        (if df.hasHigh && df.hasLow then some (rangeList df.bars) else df.rangeCol) ∧
      (∀ rc : Option (List ℚ),
        (detect_profit_zones { df with rangeCol := rc }).2 = (detect_profit_zones df).2) := by
  obtain ⟨bars, hH, hL, hV, rc⟩ := df
  cases hH <;> cases hL <;> cases hV <;> cases bars <;>
    simp [detect_profit_zones, detectBody]

/-! ### C8: determinism and idempotence of repeated invocations -/

/-- C8: the detector is a deterministic function of the frame (tie
selection included, since the embedding is a function), and invoking
it again on the frame returned by a first invocation — the caller's
dataframe after the in-place `Range` write — reproduces the first
result exactly, frame included. -/
theorem C8_deterministic (df : Frame) :
    detect_profit_zones ((detect_profit_zones df).1) = detect_profit_zones df := by
  obtain ⟨bars, hH, hL, hV, rc⟩ := df
  cases hH <;> cases hL <;> cases hV <;> cases bars <;>
    simp [detect_profit_zones, detectBody]

/-! ### C10: the two variants agree -/

/-- C10: `detect_profit_zones` (main.py) and
`TradingAssistant.detect_levels` (secondary variant) are extensionally
equal: on every frame they return the same mutated frame, the same
`(support, resistance)` pair and the same error signal — the two
bodies differ only in the text of the error message, which is not part
of the returned value. -/
theorem C10_variants_agree (df : Frame) :
    detect_levels df = detect_profit_zones df := by
  unfold detect_levels detect_profit_zones detectLevelsBody detectBody
  cases hHL : (df.hasHigh && df.hasLow)
  · rfl
  · cases hB : df.bars.isEmpty
    · cases hV : df.hasVolume
      · rfl
      · rfl
    · rfl

/-! ### Minimum / maximum of the `Range` column -/

theorem foldl_min_le_init (l : List ℚ) : ∀ a : ℚ, l.foldl min a ≤ a := by
  induction l with
  | nil => intro a; exact le_refl a
  | cons b t ih => intro a; exact le_trans (ih (min a b)) (min_le_left a b)

theorem foldl_min_le_mem (l : List ℚ) : ∀ a : ℚ, ∀ x ∈ l, l.foldl min a ≤ x := by
  induction l with
  | nil => intro a x hx; cases hx
  | cons b t ih =>
    intro a x hx
    rcases List.mem_cons.mp hx with rfl | hx
    · exact le_trans (foldl_min_le_init t (min a x)) (min_le_right a x)
    · exact ih (min a b) x hx

theorem foldl_min_mem (l : List ℚ) : ∀ a : ℚ, l.foldl min a = a ∨ l.foldl min a ∈ l := by
  induction l with
  | nil => intro a; exact Or.inl rfl
  | cons b t ih =>
    intro a
    rcases ih (min a b) with h | h
    · rw [List.foldl_cons, h]
      rcases min_choice a b with h2 | h2
      · exact Or.inl h2
      · right
        rw [h2]
        exact List.mem_cons_self b t
    · exact Or.inr (List.mem_cons_of_mem b h)

theorem init_le_foldl_max (l : List ℚ) : ∀ a : ℚ, a ≤ l.foldl max a := by
  induction l with
  | nil => intro a; exact le_refl a
  | cons b t ih => intro a; exact le_trans (le_max_left a b) (ih (max a b))

theorem mem_le_foldl_max (l : List ℚ) : ∀ a : ℚ, ∀ x ∈ l, x ≤ l.foldl max a := by
  induction l with
  | nil => intro a x hx; cases hx
  | cons b t ih =>
    intro a x hx
    rcases List.mem_cons.mp hx with rfl | hx
    · exact le_trans (le_max_right a x) (init_le_foldl_max t (max a x))
    · exact ih (max a b) x hx

theorem foldl_max_mem (l : List ℚ) : ∀ a : ℚ, l.foldl max a = a ∨ l.foldl max a ∈ l := by
  induction l with
  | nil => intro a; exact Or.inl rfl
  | cons b t ih =>
    intro a
    rcases ih (max a b) with h | h
    · rw [List.foldl_cons, h]
      rcases max_choice a b with h2 | h2
      · exact Or.inl h2
      · right
        rw [h2]
        exact List.mem_cons_self b t
    · exact Or.inr (List.mem_cons_of_mem b h)

theorem listMin_le {l : List ℚ} {x : ℚ} (h : x ∈ l) : listMin l ≤ x := by
  cases l with
  | nil => cases h
  | cons a t =>
    rcases List.mem_cons.mp h with rfl | hx
    · exact foldl_min_le_init t x
    · exact foldl_min_le_mem t a x hx

theorem le_listMax {l : List ℚ} {x : ℚ} (h : x ∈ l) : x ≤ listMax l := by
  cases l with
  | nil => cases h
  | cons a t =>
    rcases List.mem_cons.mp h with rfl | hx
    · exact init_le_foldl_max t x
    · exact mem_le_foldl_max t a x hx

theorem listMin_mem {l : List ℚ} (h : l ≠ []) : listMin l ∈ l := by
  cases l with
  | nil => exact absurd rfl h
  | cons a t =>
    rcases foldl_min_mem t a with h2 | h2
    · rw [listMin, h2]; exact List.mem_cons_self a t
    · exact List.mem_cons_of_mem a h2

theorem listMax_mem {l : List ℚ} (h : l ≠ []) : listMax l ∈ l := by
  cases l with
  | nil => exact absurd rfl h
  | cons a t =>
    rcases foldl_max_mem t a with h2 | h2
    · rw [listMax, h2]; exact List.mem_cons_self a t
    · exact List.mem_cons_of_mem a h2

theorem rlo_le {bars : List Bar} {b : Bar} (h : b ∈ bars) : rlo bars ≤ rangeValue b :=
  listMin_le (List.mem_map_of_mem rangeValue h)

theorem le_rhi {bars : List Bar} {b : Bar} (h : b ∈ bars) : rangeValue b ≤ rhi bars :=
  le_listMax (List.mem_map_of_mem rangeValue h)

theorem rangeList_ne_nil {bars : List Bar} (h : bars ≠ []) : rangeList bars ≠ [] := by
  intro h2
  exact h (List.map_eq_nil_iff.mp h2)

theorem rlo_le_rhi {bars : List Bar} (h : bars ≠ []) : rlo bars ≤ rhi bars :=
  le_listMax (listMin_mem (rangeList_ne_nil h))

/-! ### Bin edge geometry -/

theorem degenDelta_pos (v : ℚ) : 0 < degenDelta v := by
  unfold degenDelta
  by_cases h : v = 0
  · rw [if_pos h]; norm_num
  · rw [if_neg h]
    have : 0 < |v| := abs_pos.mpr h
    linarith

theorem edgeF_degen (v : ℚ) (k : ℕ) :
    edgeF v v k = (v - degenDelta v) + k * (degenDelta v / 25) := by
  unfold edgeF
  rw [if_pos rfl]
  ring

theorem edgeF_nondegen_zero {lo hi : ℚ} (hlt : lo < hi) :
    edgeF lo hi 0 = lo - (hi - lo) / 1000 := by
  unfold edgeF
  rw [if_neg (ne_of_lt hlt), if_pos rfl]

theorem edgeF_nondegen {lo hi : ℚ} (hlt : lo < hi) {k : ℕ} (hk : k ≠ 0) :
    edgeF lo hi k = lo + k * ((hi - lo) / 50) := by
  unfold edgeF
  rw [if_neg (ne_of_lt hlt), if_neg hk]

theorem edgeF_strictMono {lo hi : ℚ} (h : lo ≤ hi) {j k : ℕ} (hjk : j < k) :
    edgeF lo hi j < edgeF lo hi k := by
  have hcast : (j : ℚ) < (k : ℚ) := by exact_mod_cast hjk
  rcases eq_or_lt_of_le h with heq | hlt
  · subst heq
    rw [edgeF_degen, edgeF_degen]
    have hd := degenDelta_pos lo
    have h25 : 0 < degenDelta lo / 25 := by positivity
    have := mul_lt_mul_of_pos_right hcast h25
    linarith
  · have hw : 0 < (hi - lo) / 50 := by
      have : 0 < hi - lo := sub_pos.mpr hlt
      positivity
    have hk : k ≠ 0 := by omega
    rw [edgeF_nondegen hlt hk]
    by_cases hj : j = 0
    · subst hj
      rw [edgeF_nondegen_zero hlt]
      have hk1 : (1 : ℚ) ≤ (k : ℚ) := by
        exact_mod_cast Nat.one_le_iff_ne_zero.mpr hk
      have h1 : ((hi - lo) / 50) ≤ (k : ℚ) * ((hi - lo) / 50) := by
        nlinarith
      have h2 : 0 < (hi - lo) / 1000 := by
        have : 0 < hi - lo := sub_pos.mpr hlt
        positivity
      linarith
    · rw [edgeF_nondegen hlt hj]
      have := mul_lt_mul_of_pos_right hcast hw
      linarith

theorem edgeF_mono {lo hi : ℚ} (h : lo ≤ hi) {j k : ℕ} (hjk : j ≤ k) :
    edgeF lo hi j ≤ edgeF lo hi k := by
  rcases lt_or_eq_of_le hjk with h2 | h2
  · exact le_of_lt (edgeF_strictMono h h2)
  · rw [h2]

theorem edgeF_zero_lt {lo hi : ℚ} (h : lo ≤ hi) : edgeF lo hi 0 < lo := by
  rcases eq_or_lt_of_le h with heq | hlt
  · subst heq
    rw [edgeF_degen]
    have hd := degenDelta_pos lo
    push_cast
    linarith
  · rw [edgeF_nondegen_zero hlt]
    have : 0 < (hi - lo) / 1000 := by
      have : 0 < hi - lo := sub_pos.mpr hlt
      positivity
    linarith

theorem le_edgeF_fifty {lo hi : ℚ} (h : lo ≤ hi) : hi ≤ edgeF lo hi 50 := by
  rcases eq_or_lt_of_le h with heq | hlt
  · subst heq
    rw [edgeF_degen]
    have hd := degenDelta_pos lo
    push_cast
    linarith
  · rw [edgeF_nondegen hlt (by omega : (50:ℕ) ≠ 0)]
    push_cast
    linarith

/-! ### Characterisation of the bin index -/

theorem filter_range_downclosed (p : ℕ → Bool)
    (hmono : ∀ i j : ℕ, i ≤ j → p j = true → p i = true) :
    ∀ n : ℕ, (List.range n).filter p = List.range ((List.range n).filter p).length := by
  intro n
  induction n with
  | zero => rfl
  | succ m ih =>
    cases hp : p m
    · rw [List.range_succ, List.filter_append]
      have h1 : [m].filter p = [] := by simp [List.filter, hp]
      rw [h1, List.append_nil]
      exact ih
    · have hall : ∀ a ∈ List.range (m+1), p a = true := by
        intro a ha
        have h2 : a < m + 1 := List.mem_range.mp ha
        exact hmono a m (by omega) hp
      rw [List.filter_eq_self.mpr hall, List.length_range]

theorem binIdxF_spec {lo hi x : ℚ} (h1 : lo ≤ hi) (h2 : lo ≤ x) (h3 : x ≤ hi) :
    binIdxF lo hi x < 50 ∧ edgeF lo hi (binIdxF lo hi x) < x ∧
      x ≤ edgeF lo hi (binIdxF lo hi x + 1) := by
  have hmono : ∀ i j : ℕ, i ≤ j →
      (fun j => decide (edgeF lo hi (j+1) < x)) j = true →
      (fun j => decide (edgeF lo hi (j+1) < x)) i = true := by
    intro i j hij hj
    simp only [decide_eq_true_eq] at hj ⊢
    exact lt_of_le_of_lt (edgeF_mono h1 (by omega : i + 1 ≤ j + 1)) hj
  have hfil := filter_range_downclosed _ hmono 50
  have hlen : binIdxF lo hi x =
      ((List.range 50).filter (fun j => decide (edgeF lo hi (j+1) < x))).length := rfl
  have hle : binIdxF lo hi x ≤ 50 := by
    rw [hlen]
    calc ((List.range 50).filter _).length ≤ (List.range 50).length :=
          (List.filter_sublist _).length_le
      _ = 50 := List.length_range 50
  have hlt : binIdxF lo hi x < 50 := by
    rcases lt_or_eq_of_le hle with hcase | hcase
    · exact hcase
    · exfalso
      have hfull : (List.range 50).filter (fun j => decide (edgeF lo hi (j+1) < x)) =
          List.range 50 := by
        rw [hfil, ← hlen, hcase]
      have h49 : (49 : ℕ) ∈ (List.range 50).filter
          (fun j => decide (edgeF lo hi (j+1) < x)) := by
        rw [hfull]
        exact List.mem_range.mpr (by omega)
      have h49p := (List.mem_filter.mp h49).2
      simp only [decide_eq_true_eq] at h49p
      exact absurd h49p (not_lt.mpr (le_trans h3 (le_edgeF_fifty h1)))
  refine ⟨hlt, ?_, ?_⟩
  · rcases Nat.eq_zero_or_pos (binIdxF lo hi x) with h0 | hpos
    · rw [h0]
      exact lt_of_lt_of_le (edgeF_zero_lt h1) h2
    · obtain ⟨j, hj⟩ : ∃ j, binIdxF lo hi x = j + 1 :=
        ⟨binIdxF lo hi x - 1, by omega⟩
      have hjm : j ∈ (List.range 50).filter (fun j => decide (edgeF lo hi (j+1) < x)) := by
        rw [hfil, ← hlen, hj]
        exact List.mem_range.mpr (by omega)
      have := (List.mem_filter.mp hjm).2
      simp only [decide_eq_true_eq] at this
      rw [hj]
      exact this
  · have hnot : (fun j => decide (edgeF lo hi (j+1) < x)) (binIdxF lo hi x) = false := by
      cases hq : (fun j => decide (edgeF lo hi (j+1) < x)) (binIdxF lo hi x)
      · rfl
      · exfalso
        have hmem : binIdxF lo hi x ∈
            (List.range 50).filter (fun j => decide (edgeF lo hi (j+1) < x)) :=
          List.mem_filter.mpr ⟨List.mem_range.mpr hlt, hq⟩
        rw [hfil, ← hlen] at hmem
        have := List.mem_range.mp hmem
        omega
    simp only [decide_eq_false_iff_not] at hnot
    exact le_of_not_lt hnot

theorem binIdxF_eq_of {lo hi x : ℚ} {i : ℕ} (h1 : lo ≤ hi) (h2 : lo ≤ x) (h3 : x ≤ hi)
    (hi50 : i < 50) (ha : edgeF lo hi i < x) (hb : x ≤ edgeF lo hi (i + 1)) :
    binIdxF lo hi x = i := by
  obtain ⟨hlt, hlo, hhi⟩ := binIdxF_spec h1 h2 h3
  rcases lt_trichotomy (binIdxF lo hi x) i with hcase | hcase | hcase
  · exfalso
    have : edgeF lo hi (binIdxF lo hi x + 1) ≤ edgeF lo hi i := edgeF_mono h1 (by omega)
    linarith
  · exact hcase
  · exfalso
    have : edgeF lo hi (i + 1) ≤ edgeF lo hi (binIdxF lo hi x) := edgeF_mono h1 (by omega)
    linarith

/-! ### Midpoints increase strictly with the bin index -/

theorem binMid_strictMono {bars : List Bar} (h : rlo bars ≤ rhi bars) {i j : ℕ}
    (hij : i < j) : binMid bars i < binMid bars j := by
  unfold binMid edge
  have h1 : edgeF (rlo bars) (rhi bars) i < edgeF (rlo bars) (rhi bars) j :=
    edgeF_strictMono h hij
  have h2 : edgeF (rlo bars) (rhi bars) (i+1) < edgeF (rlo bars) (rhi bars) (j+1) :=
    edgeF_strictMono h (by omega)
  linarith

theorem binMid_inj {bars : List Bar} (h : rlo bars ≤ rhi bars) {i j : ℕ}
    (heq : binMid bars i = binMid bars j) : i = j := by
  rcases lt_trichotomy i j with hc | hc | hc
  · exact absurd heq (ne_of_lt (binMid_strictMono h hc))
  · exact hc
  · exact absurd heq.symm (ne_of_lt (binMid_strictMono h hc))

/-! ### Selection lemmas (`nlargest` / `nsmallest` with `keep='first'`) -/

theorem firstMax_cons (a : ℚ × ℚ) (l : List (ℚ × ℚ)) :
    firstMax (a :: l) = match firstMax l with
      | none => some a
      | some m => if a.2 < m.2 then some m else some a := rfl

theorem firstMin_cons (a : ℚ × ℚ) (l : List (ℚ × ℚ)) :
    firstMin (a :: l) = match firstMin l with
      | none => some a
      | some m => if m.2 < a.2 then some m else some a := rfl

theorem firstMax_cons_none {l : List (ℚ × ℚ)} (a : ℚ × ℚ) (h : firstMax l = none) :
    firstMax (a :: l) = some a := by
  rw [firstMax_cons, h]

theorem firstMin_cons_none {l : List (ℚ × ℚ)} (a : ℚ × ℚ) (h : firstMin l = none) :
    firstMin (a :: l) = some a := by
  rw [firstMin_cons, h]

theorem firstMax_cons_some {l : List (ℚ × ℚ)} {m : ℚ × ℚ} (a : ℚ × ℚ)
    (h : firstMax l = some m) :
    firstMax (a :: l) = if a.2 < m.2 then some m else some a := by
  rw [firstMax_cons, h]

theorem firstMin_cons_some {l : List (ℚ × ℚ)} {m : ℚ × ℚ} (a : ℚ × ℚ)
    (h : firstMin l = some m) :
    firstMin (a :: l) = if m.2 < a.2 then some m else some a := by
  rw [firstMin_cons, h]

theorem firstMax_eq_none_iff {l : List (ℚ × ℚ)} : firstMax l = none ↔ l = [] := by
  cases l with
  | nil => simp [firstMax]
  | cons a t =>
    constructor
    · intro h
      cases ht : firstMax t with
      | none => rw [firstMax_cons_none a ht] at h; cases h
      | some m =>
        rw [firstMax_cons_some a ht] at h
        by_cases hc : a.2 < m.2
        · rw [if_pos hc] at h; cases h
        · rw [if_neg hc] at h; cases h
    · intro h; cases h

theorem firstMin_eq_none_iff {l : List (ℚ × ℚ)} : firstMin l = none ↔ l = [] := by
  cases l with
  | nil => simp [firstMin]
  | cons a t =>
    constructor
    · intro h
      cases ht : firstMin t with
      | none => rw [firstMin_cons_none a ht] at h; cases h
      | some m =>
        rw [firstMin_cons_some a ht] at h
        by_cases hc : m.2 < a.2
        · rw [if_pos hc] at h; cases h
        · rw [if_neg hc] at h; cases h
    · intro h; cases h

theorem firstMax_mem : ∀ {l : List (ℚ × ℚ)} {m : ℚ × ℚ}, firstMax l = some m → m ∈ l := by
  intro l
  induction l with
  | nil => intro m h; cases h
  | cons a t ih =>
    intro m h
    cases ht : firstMax t with
    | none =>
      rw [firstMax_cons_none a ht] at h
      injection h with h
      exact h ▸ List.mem_cons_self a t
    | some b =>
      rw [firstMax_cons_some a ht] at h
      by_cases hc : a.2 < b.2
      · rw [if_pos hc] at h
        injection h with h
        exact h ▸ List.mem_cons_of_mem a (ih ht)
      · rw [if_neg hc] at h
        injection h with h
        exact h ▸ List.mem_cons_self a t

theorem firstMin_mem : ∀ {l : List (ℚ × ℚ)} {m : ℚ × ℚ}, firstMin l = some m → m ∈ l := by
  intro l
  induction l with
  | nil => intro m h; cases h
  | cons a t ih =>
    intro m h
    cases ht : firstMin t with
    | none =>
      rw [firstMin_cons_none a ht] at h
      injection h with h
      exact h ▸ List.mem_cons_self a t
    | some b =>
      rw [firstMin_cons_some a ht] at h
      by_cases hc : b.2 < a.2
      · rw [if_pos hc] at h
        injection h with h
        exact h ▸ List.mem_cons_of_mem a (ih ht)
      · rw [if_neg hc] at h
        injection h with h
        exact h ▸ List.mem_cons_self a t

theorem firstMax_le : ∀ {l : List (ℚ × ℚ)} {m : ℚ × ℚ}, firstMax l = some m →
    ∀ a ∈ l, a.2 ≤ m.2 := by
  intro l
  induction l with
  | nil => intro m h; cases h
  | cons c t ih =>
    intro m h a ha
    cases ht : firstMax t with
    | none =>
      rw [firstMax_cons_none c ht] at h
      injection h with h
      subst h
      have h2 : t = [] := firstMax_eq_none_iff.mp ht
      subst h2
      rcases List.mem_cons.mp ha with rfl | ha2
      · exact le_refl _
      · cases ha2
    | some b =>
      rw [firstMax_cons_some c ht] at h
      by_cases hc : c.2 < b.2
      · rw [if_pos hc] at h
        injection h with h
        subst h
        rcases List.mem_cons.mp ha with rfl | ha2
        · exact le_of_lt hc
        · exact ih ht a ha2
      · rw [if_neg hc] at h
        injection h with h
        subst h
        rcases List.mem_cons.mp ha with rfl | ha2
        · exact le_refl _
        · exact le_trans (ih ht a ha2) (not_lt.mp hc)

theorem firstMin_le : ∀ {l : List (ℚ × ℚ)} {m : ℚ × ℚ}, firstMin l = some m →
    ∀ a ∈ l, m.2 ≤ a.2 := by
  intro l
  induction l with
  | nil => intro m h; cases h
  | cons c t ih =>
    intro m h a ha
    cases ht : firstMin t with
    | none =>
      rw [firstMin_cons_none c ht] at h
      injection h with h
      subst h
      have h2 : t = [] := firstMin_eq_none_iff.mp ht
      subst h2
      rcases List.mem_cons.mp ha with rfl | ha2
      · exact le_refl _
      · cases ha2
    | some b =>
      rw [firstMin_cons_some c ht] at h
      by_cases hc : b.2 < c.2
      · rw [if_pos hc] at h
        injection h with h
        subst h
        rcases List.mem_cons.mp ha with rfl | ha2
        · exact le_of_lt hc
        · exact ih ht a ha2
      · rw [if_neg hc] at h
        injection h with h
        subst h
        rcases List.mem_cons.mp ha with rfl | ha2
        · exact le_refl _
        · exact le_trans (not_lt.mp hc) (ih ht a ha2)

theorem firstMax_cons_of_le {a : ℚ × ℚ} {l : List (ℚ × ℚ)}
    (h : ∀ x ∈ l, x.2 ≤ a.2) : firstMax (a :: l) = some a := by
  cases ht : firstMax l with
  | none => exact firstMax_cons_none a ht
  | some m =>
    have hm : m ∈ l := firstMax_mem ht
    rw [firstMax_cons_some a ht, if_neg (not_lt.mpr (h m hm))]

theorem firstMin_cons_of_le {a : ℚ × ℚ} {l : List (ℚ × ℚ)}
    (h : ∀ x ∈ l, a.2 ≤ x.2) : firstMin (a :: l) = some a := by
  cases ht : firstMin l with
  | none => exact firstMin_cons_none a ht
  | some m =>
    have hm : m ∈ l := firstMin_mem ht
    rw [firstMin_cons_some a ht, if_neg (not_lt.mpr (h m hm))]

theorem firstMax_append_mid : ∀ (A : List (ℚ × ℚ)) {m : ℚ × ℚ} {B : List (ℚ × ℚ)},
    (∀ x ∈ A, x.2 < m.2) → (∀ x ∈ B, x.2 ≤ m.2) → firstMax (A ++ m :: B) = some m := by
  intro A
  induction A with
  | nil => intro m B _ hB; exact firstMax_cons_of_le hB
  | cons a A2 ih =>
    intro m B hA hB
    have h1 : firstMax (A2 ++ m :: B) = some m :=
      ih (fun x hx => hA x (List.mem_cons_of_mem a hx)) hB
    show firstMax (a :: (A2 ++ m :: B)) = some m
    rw [firstMax_cons_some a h1, if_pos (hA a (List.mem_cons_self a A2))]

theorem firstMin_append_mid : ∀ (A : List (ℚ × ℚ)) {m : ℚ × ℚ} {B : List (ℚ × ℚ)},
    (∀ x ∈ A, m.2 < x.2) → (∀ x ∈ B, m.2 ≤ x.2) → firstMin (A ++ m :: B) = some m := by
  intro A
  induction A with
  | nil => intro m B _ hB; exact firstMin_cons_of_le hB
  | cons a A2 ih =>
    intro m B hA hB
    have h1 : firstMin (A2 ++ m :: B) = some m :=
      ih (fun x hx => hA x (List.mem_cons_of_mem a hx)) hB
    show firstMin (a :: (A2 ++ m :: B)) = some m
    rw [firstMin_cons_some a h1, if_pos (hA a (List.mem_cons_self a A2))]

theorem countP_erase_ge (p : (ℚ × ℚ) → Bool) : ∀ (rows : List (ℚ × ℚ)) (m : ℚ × ℚ),
    rows.countP p ≤ (rows.erase m).countP p + 1 := by
  intro rows
  induction rows with
  | nil => intro m; simp
  | cons a t ih =>
    intro m
    rw [List.erase_cons]
    by_cases ham : a = m
    · rw [if_pos (by exact beq_iff_eq.mpr ham), List.countP_cons]
      have hite : (if p a = true then 1 else 0) ≤ 1 := by
        split
        · exact le_refl 1
        · omega
      omega
    · rw [if_neg (by simpa using ham), List.countP_cons, List.countP_cons]
      have := ih m
      omega

theorem selectTop_length : ∀ (n : ℕ) (rows : List (ℚ × ℚ)),
    (selectTop n rows).length = min n rows.length := by
  intro n
  induction n with
  | zero => intro rows; simp [selectTop]
  | succ k ih =>
    intro rows
    cases hm : firstMax rows with
    | none =>
      have h2 : rows = [] := firstMax_eq_none_iff.mp hm
      subst h2
      simp [selectTop, firstMax]
    | some m =>
      have hmem : m ∈ rows := firstMax_mem hm
      have hlen : 1 ≤ rows.length := by
        cases rows with
        | nil => cases hmem
        | cons a t => simp
      simp only [selectTop, hm, List.length_cons, ih, List.length_erase_of_mem hmem]
      omega

theorem selectBot_length : ∀ (n : ℕ) (rows : List (ℚ × ℚ)),
    (selectBot n rows).length = min n rows.length := by
  intro n
  induction n with
  | zero => intro rows; simp [selectBot]
  | succ k ih =>
    intro rows
    cases hm : firstMin rows with
    | none =>
      have h2 : rows = [] := firstMin_eq_none_iff.mp hm
      subst h2
      simp [selectBot, firstMin]
    | some m =>
      have hmem : m ∈ rows := firstMin_mem hm
      have hlen : 1 ≤ rows.length := by
        cases rows with
        | nil => cases hmem
        | cons a t => simp
      simp only [selectBot, hm, List.length_cons, ih, List.length_erase_of_mem hmem]
      omega

theorem selectTop_subset : ∀ (n : ℕ) (rows : List (ℚ × ℚ)) {a : ℚ × ℚ},
    a ∈ selectTop n rows → a ∈ rows := by
  intro n
  induction n with
  | zero => intro rows a h; cases h
  | succ k ih =>
    intro rows a h
    cases hm : firstMax rows with
    | none => rw [selectTop, hm] at h; cases h
    | some m =>
      rw [selectTop, hm] at h
      rcases List.mem_cons.mp h with rfl | h2
      · exact firstMax_mem hm
      · exact List.mem_of_mem_erase (ih (rows.erase m) h2)

theorem selectBot_subset : ∀ (n : ℕ) (rows : List (ℚ × ℚ)) {a : ℚ × ℚ},
    a ∈ selectBot n rows → a ∈ rows := by
  intro n
  induction n with
  | zero => intro rows a h; cases h
  | succ k ih =>
    intro rows a h
    cases hm : firstMin rows with
    | none => rw [selectBot, hm] at h; cases h
    | some m =>
      rw [selectBot, hm] at h
      rcases List.mem_cons.mp h with rfl | h2
      · exact firstMin_mem hm
      · exact List.mem_of_mem_erase (ih (rows.erase m) h2)

theorem selectTop_dominates : ∀ (n : ℕ) (rows : List (ℚ × ℚ)) {b : ℚ × ℚ},
    b ∈ rows → b ∉ selectTop n rows → ∀ a ∈ selectTop n rows, b.2 ≤ a.2 := by
  intro n
  induction n with
  | zero => intro rows b _ _ a ha; cases ha
  | succ k ih =>
    intro rows b hb hnot a ha
    cases hm : firstMax rows with
    | none => rw [selectTop, hm] at ha; cases ha
    | some m =>
      rw [selectTop, hm] at ha hnot
      have hbm : b ≠ m := by
        intro h
        exact hnot (h ▸ List.mem_cons_self m _)
      have hbt : b ∉ selectTop k (rows.erase m) := by
        intro h
        exact hnot (List.mem_cons_of_mem m h)
      rcases List.mem_cons.mp ha with rfl | ha2
      · exact firstMax_le hm b hb
      · exact ih (rows.erase m) ((List.mem_erase_of_ne hbm).mpr hb) hbt a ha2

theorem selectBot_dominated : ∀ (n : ℕ) (rows : List (ℚ × ℚ)) {b : ℚ × ℚ},
    b ∈ rows → b ∉ selectBot n rows → ∀ a ∈ selectBot n rows, a.2 ≤ b.2 := by
  intro n
  induction n with
  | zero => intro rows b _ _ a ha; cases ha
  | succ k ih =>
    intro rows b hb hnot a ha
    cases hm : firstMin rows with
    | none => rw [selectBot, hm] at ha; cases ha
    | some m =>
      rw [selectBot, hm] at ha hnot
      have hbm : b ≠ m := by
        intro h
        exact hnot (h ▸ List.mem_cons_self m _)
      have hbt : b ∉ selectBot k (rows.erase m) := by
        intro h
        exact hnot (List.mem_cons_of_mem m h)
      rcases List.mem_cons.mp ha with rfl | ha2
      · exact firstMin_le hm b hb
      · exact ih (rows.erase m) ((List.mem_erase_of_ne hbm).mpr hb) hbt a ha2

theorem selectTop_pos : ∀ (n : ℕ) (rows : List (ℚ × ℚ)),
    n ≤ rows.countP (fun r => decide (0 < r.2)) →
    ∀ a ∈ selectTop n rows, 0 < a.2 := by
  intro n
  induction n with
  | zero => intro rows _ a ha; cases ha
  | succ k ih =>
    intro rows hcount a ha
    have hpos : 0 < rows.countP (fun r => decide (0 < r.2)) := by omega
    obtain ⟨r, hr, hr2⟩ := List.countP_pos_iff.mp hpos
    simp only [decide_eq_true_eq] at hr2
    cases hm : firstMax rows with
    | none =>
      have h2 : rows = [] := firstMax_eq_none_iff.mp hm
      subst h2
      cases hr
    | some m =>
      rw [selectTop, hm] at ha
      rcases List.mem_cons.mp ha with rfl | ha2
      · exact lt_of_lt_of_le hr2 (firstMax_le hm r hr)
      · refine ih (rows.erase m) ?_ a ha2
        have htrans := le_trans hcount (countP_erase_ge _ rows m)
        omega

theorem selectBot_zero : ∀ (n : ℕ) (rows : List (ℚ × ℚ)),
    (∀ r ∈ rows, 0 ≤ r.2) →
    n ≤ rows.countP (fun r => decide (r.2 = 0)) →
    ∀ a ∈ selectBot n rows, a.2 = 0 := by
  intro n
  induction n with
  | zero => intro rows _ _ a ha; cases ha
  | succ k ih =>
    intro rows hnn hcount a ha
    have hpos : 0 < rows.countP (fun r => decide (r.2 = 0)) := by omega
    obtain ⟨z, hz, hz2⟩ := List.countP_pos_iff.mp hpos
    simp only [decide_eq_true_eq] at hz2
    cases hm : firstMin rows with
    | none =>
      have h2 : rows = [] := firstMin_eq_none_iff.mp hm
      subst h2
      cases hz
    | some m =>
      rw [selectBot, hm] at ha
      rcases List.mem_cons.mp ha with rfl | ha2
      · have h1 : a.2 ≤ z.2 := firstMin_le hm z hz
        have h2 : 0 ≤ a.2 := hnn a (firstMin_mem hm)
        rw [hz2] at h1
        linarith
      · refine ih (rows.erase m) ?_ ?_ a ha2
        · intro r hr
          exact hnn r (List.mem_of_mem_erase hr)
        · have htrans := le_trans hcount (countP_erase_ge _ rows m)
          omega

theorem selectTop_of_const : ∀ (n : ℕ) (l : List (ℚ × ℚ)) (c : ℚ),
    (∀ x ∈ l, x.2 = c) → selectTop n l = l.take n := by
  intro n
  induction n with
  | zero => intro l c _; simp [selectTop]
  | succ k ih =>
    intro l c hc
    cases l with
    | nil => simp [selectTop, firstMax]
    | cons a t =>
      have hmax : firstMax (a :: t) = some a := by
        refine firstMax_cons_of_le ?_
        intro x hx
        rw [hc x (List.mem_cons_of_mem a hx), hc a (List.mem_cons_self a t)]
      rw [selectTop, hmax]
      show a :: selectTop k ((a :: t).erase a) = List.take (k+1) (a :: t)
      rw [List.erase_cons_head, ih t c (fun x hx => hc x (List.mem_cons_of_mem a hx))]
      rfl

theorem selectBot_of_const : ∀ (n : ℕ) (l : List (ℚ × ℚ)) (c : ℚ),
    (∀ x ∈ l, x.2 = c) → selectBot n l = l.take n := by
  intro n
  induction n with
  | zero => intro l c _; simp [selectBot]
  | succ k ih =>
    intro l c hc
    cases l with
    | nil => simp [selectBot, firstMin]
    | cons a t =>
      have hmin : firstMin (a :: t) = some a := by
        refine firstMin_cons_of_le ?_
        intro x hx
        rw [hc x (List.mem_cons_of_mem a hx), hc a (List.mem_cons_self a t)]
      rw [selectBot, hmin]
      show a :: selectBot k ((a :: t).erase a) = List.take (k+1) (a :: t)
      rw [List.erase_cons_head, ih t c (fun x hx => hc x (List.mem_cons_of_mem a hx))]
      rfl

/-! ### Python `sorted` -/

theorem pySorted_sorted (l : List ℚ) : (pySorted l).Sorted (· ≤ ·) :=
  List.sorted_insertionSort (· ≤ ·) l

theorem pySorted_perm (l : List ℚ) : List.Perm (pySorted l) l :=
  List.perm_insertionSort (· ≤ ·) l

theorem pySorted_eq_of_perm_sorted {l t : List ℚ} (hperm : List.Perm l t)
    (hs : t.Sorted (· ≤ ·)) : pySorted l = t :=
  List.eq_of_perm_of_sorted ((pySorted_perm l).trans hperm) (pySorted_sorted l) hs

theorem pySorted_length (l : List ℚ) : (pySorted l).length = l.length :=
  (pySorted_perm l).length_eq

/-! ### The profile rows -/

theorem volProfile_length (bars : List Bar) : (volProfile bars).length = 50 := by
  simp [volProfile]

theorem mem_volProfile {bars : List Bar} {r : ℚ × ℚ} (h : r ∈ volProfile bars) :
    ∃ i : ℕ, i < 50 ∧ r = (binMid bars i, binVol bars i) := by
  obtain ⟨i, hi, hr⟩ := List.mem_map.mp h
  exact ⟨i, List.mem_range.mp hi, hr.symm⟩

/-! ### Unfolding one selection step -/

theorem selectTop_succ (n : ℕ) (rows : List (ℚ × ℚ)) (m : ℚ × ℚ)
    (h : firstMax rows = some m) :
    selectTop (n + 1) rows = m :: selectTop n (rows.erase m) := by
  rw [selectTop, h]

theorem selectBot_succ (n : ℕ) (rows : List (ℚ × ℚ)) (m : ℚ × ℚ)
    (h : firstMin rows = some m) :
    selectBot (n + 1) rows = m :: selectBot n (rows.erase m) := by
  rw [selectBot, h]

/-! ### The single-bar series: one occupied bin (bin 24 of the
degenerate cut), all other 49 bins kept with volume 0 -/

theorem binIdx_single (b : Bar) : binIdx [b] (rangeValue b) = 24 := by
  show binIdxF (rlo [b]) (rhi [b]) (rangeValue b) = 24
  have hlo : rlo [b] = rangeValue b := rfl
  have hhi : rhi [b] = rangeValue b := rfl
  rw [hlo, hhi]
  have hd := degenDelta_pos (rangeValue b)
  refine binIdxF_eq_of (le_refl _) (le_refl _) (le_refl _) (by omega) ?_ ?_
  · rw [edgeF_degen]
    push_cast
    linarith
  · rw [edgeF_degen]
    push_cast
    linarith

theorem filter_single_bin (b : Bar) (i : ℕ) :
    [b].filter (fun c => decide (binIdx [b] (rangeValue c) = i)) =
      if i = 24 then [b] else [] := by
  have h24 := binIdx_single b
  by_cases hi : i = 24
  · subst hi
    simp [List.filter_cons, h24]
  · simp [List.filter_cons, h24, Ne.symm hi, hi]

theorem binVol_single (b : Bar) (i : ℕ) :
    binVol [b] i = if i = 24 then b.volume else 0 := by
  unfold binVol
  rw [filter_single_bin]
  by_cases hi : i = 24
  · simp [hi]
  · simp [hi]

theorem occupiedCount_single (b : Bar) : occupiedCount [b] = 1 := by
  unfold occupiedCount
  have hcong : ∀ i ∈ List.range 50,
      (decide (([b].filter (fun c => decide (binIdx [b] (rangeValue c) = i))) ≠ [])) =
        decide (i = 24) := by
    intro i _
    rw [filter_single_bin]
    by_cases hi : i = 24
    · simp [hi]
    · simp [hi]
  rw [List.filter_congr hcong]
  decide

theorem volProfile_single (b : Bar) :
    volProfile [b] = (List.range 50).map
      (fun i => (binMid [b] i, if i = 24 then b.volume else 0)) := by
  unfold volProfile
  exact List.map_congr_left (fun i _ => by rw [binVol_single])

theorem selectTop3_eq (rows : List (ℚ × ℚ)) (m : ℚ × ℚ) (h : firstMax rows = some m) :
    selectTop 3 rows = m :: selectTop 2 (rows.erase m) :=
  selectTop_succ 2 rows m h

theorem selectBot3_eq (rows : List (ℚ × ℚ)) (m : ℚ × ℚ) (h : firstMin rows = some m) :
    selectBot 3 rows = m :: selectBot 2 (rows.erase m) :=
  selectBot_succ 2 rows m h

theorem selectTop2_eq (rows : List (ℚ × ℚ)) (m : ℚ × ℚ) (h : firstMax rows = some m) :
    selectTop 2 rows = m :: selectTop 1 (rows.erase m) :=
  selectTop_succ 1 rows m h

theorem selectBot2_eq (rows : List (ℚ × ℚ)) (m : ℚ × ℚ) (h : firstMin rows = some m) :
    selectBot 2 rows = m :: selectBot 1 (rows.erase m) :=
  selectBot_succ 1 rows m h

theorem selectTop1_eq (rows : List (ℚ × ℚ)) (m : ℚ × ℚ) (h : firstMax rows = some m) :
    selectTop 1 rows = [m] :=
  selectTop_succ 0 rows m h

theorem selectBot1_eq (rows : List (ℚ × ℚ)) (m : ℚ × ℚ) (h : firstMin rows = some m) :
    selectBot 1 rows = [m] :=
  selectBot_succ 0 rows m h

theorem detect_single_core (b : Bar) (hv : 0 < b.volume) :
    selectTop 3 (volProfile [b]) =
      [(binMid [b] 24, b.volume), (binMid [b] 0, (0:ℚ)), (binMid [b] 1, (0:ℚ))] ∧
    selectBot 3 (volProfile [b]) =
      [(binMid [b] 0, (0:ℚ)), (binMid [b] 1, (0:ℚ)), (binMid [b] 2, (0:ℚ))] := by
  have hprof := volProfile_single b
  have hsplit : List.range 50 =
      List.range 24 ++ 24 :: (List.range 25).map (fun j => 25 + j) := by decide
  have hrows : volProfile [b] =
      (List.range 24).map (fun i => (binMid [b] i, if i = 24 then b.volume else 0)) ++
        (binMid [b] 24, b.volume) ::
          (List.range 25).map
            (fun j => (binMid [b] (25 + j), if 25 + j = 24 then b.volume else 0)) := by
    rw [hprof, hsplit, List.map_append, List.map_cons, List.map_map]
    rfl
  have hA0 : ∀ x ∈ (List.range 24).map
      (fun i => (binMid [b] i, if i = 24 then b.volume else 0)), x.2 = 0 := by
    intro x hx
    obtain ⟨i, hi, rfl⟩ := List.mem_map.mp hx
    have h2 : i < 24 := List.mem_range.mp hi
    show (if i = 24 then b.volume else 0) = 0
    rw [if_neg (by omega)]
  have hB0 : ∀ x ∈ (List.range 25).map
      (fun j => (binMid [b] (25 + j), if 25 + j = 24 then b.volume else 0)), x.2 = 0 := by
    intro x hx
    obtain ⟨j, _, rfl⟩ := List.mem_map.mp hx
    show (if 25 + j = 24 then b.volume else 0) = 0
    rw [if_neg (by omega)]
  have hfm : firstMax (volProfile [b]) = some (binMid [b] 24, b.volume) := by
    rw [hrows]
    refine firstMax_append_mid _ ?_ ?_
    · intro x hx
      rw [hA0 x hx]
      exact hv
    · intro x hx
      rw [hB0 x hx]
      exact le_of_lt hv
  have hnotA : (binMid [b] 24, b.volume) ∉ (List.range 24).map
      (fun i => (binMid [b] i, if i = 24 then b.volume else 0)) := by
    intro hmem
    have h2 := hA0 _ hmem
    exact absurd h2 (ne_of_gt hv)
  have herase : (volProfile [b]).erase (binMid [b] 24, b.volume) =
      (List.range 24).map (fun i => (binMid [b] i, if i = 24 then b.volume else 0)) ++
        (List.range 25).map
          (fun j => (binMid [b] (25 + j), if 25 + j = 24 then b.volume else 0)) := by
    rw [hrows, List.erase_append_right _ hnotA, List.erase_cons_head]
  have hrem : ∀ x ∈ (List.range 24).map
      (fun i => (binMid [b] i, if i = 24 then b.volume else 0)) ++
        (List.range 25).map
          (fun j => (binMid [b] (25 + j), if 25 + j = 24 then b.volume else 0)),
      x.2 = 0 := by
    intro x hx
    rcases List.mem_append.mp hx with h | h
    · exact hA0 x h
    · exact hB0 x h
  have hsplit24 : List.range 24 = 0 :: 1 :: (List.range 22).map (fun j => 2 + j) := by
    decide
  have htake : selectTop 2
      ((List.range 24).map (fun i => (binMid [b] i, if i = 24 then b.volume else 0)) ++
        (List.range 25).map
          (fun j => (binMid [b] (25 + j), if 25 + j = 24 then b.volume else 0))) =
      [(binMid [b] 0, (0:ℚ)), (binMid [b] 1, (0:ℚ))] := by
    rw [selectTop_of_const 2 _ 0 hrem, hsplit24, List.map_cons, List.map_cons]
    rfl
  constructor
  · rw [selectTop3_eq _ _ hfm, herase, htake]
  · have hcons : List.range 50 = 0 :: 1 :: 2 :: (List.range 47).map (fun j => 3 + j) := by
      decide
    have hrows2 : volProfile [b] =
        (binMid [b] 0, (0:ℚ)) :: (binMid [b] 1, (0:ℚ)) :: (binMid [b] 2, (0:ℚ)) ::
          (List.range 47).map
            (fun j => (binMid [b] (3 + j), if 3 + j = 24 then b.volume else 0)) := by
      rw [hprof, hcons, List.map_cons, List.map_cons, List.map_cons, List.map_map]
      rfl
    have hC : ∀ x ∈ (List.range 47).map
        (fun j => (binMid [b] (3 + j), if 3 + j = 24 then b.volume else 0)), 0 ≤ x.2 := by
      intro x hx
      obtain ⟨j, _, rfl⟩ := List.mem_map.mp hx
      show 0 ≤ (if 3 + j = 24 then b.volume else 0)
      split
      · exact le_of_lt hv
      · exact le_refl 0
    have hfm0 : firstMin (volProfile [b]) = some (binMid [b] 0, (0:ℚ)) := by
      rw [hrows2]
      refine firstMin_cons_of_le ?_
      intro x hx
      show (0:ℚ) ≤ x.2
      rcases List.mem_cons.mp hx with rfl | hx2
      · exact le_refl 0
      · rcases List.mem_cons.mp hx2 with rfl | hx3
        · exact le_refl 0
        · exact hC x hx3
    have hfm1 : firstMin ((binMid [b] 1, (0:ℚ)) :: (binMid [b] 2, (0:ℚ)) ::
        (List.range 47).map
          (fun j => (binMid [b] (3 + j), if 3 + j = 24 then b.volume else 0))) =
        some (binMid [b] 1, (0:ℚ)) := by
      refine firstMin_cons_of_le ?_
      intro x hx
      show (0:ℚ) ≤ x.2
      rcases List.mem_cons.mp hx with rfl | hx2
      · exact le_refl 0
      · exact hC x hx2
    have hfm2 : firstMin ((binMid [b] 2, (0:ℚ)) ::
        (List.range 47).map
          (fun j => (binMid [b] (3 + j), if 3 + j = 24 then b.volume else 0))) =
        some (binMid [b] 2, (0:ℚ)) := by
      refine firstMin_cons_of_le ?_
      intro x hx
      exact hC x hx
    rw [selectBot3_eq _ _ hfm0, hrows2, List.erase_cons_head,
      selectBot2_eq _ _ hfm1, List.erase_cons_head, selectBot1_eq _ _ hfm2]

theorem detect_single (b : Bar) (hv : 0 < b.volume) :
    detect_profit_zones ⟨[b], true, true, true, none⟩ =
      (⟨[b], true, true, true, some [rangeValue b]⟩,
       ([binMid [b] 0, binMid [b] 1, binMid [b] 24],
        [binMid [b] 0, binMid [b] 1, binMid [b] 2]), false) := by
  obtain ⟨htop, hbot⟩ := detect_single_core b hv
  have hok := detect_eq_ok ⟨[b], true, true, true, none⟩ rfl rfl rfl rfl
  rw [hok]
  have hne : ([b] : List Bar) ≠ [] := by simp
  have hle := rlo_le_rhi hne
  have h01 : binMid [b] 0 < binMid [b] 1 := binMid_strictMono hle (by omega)
  have h12 : binMid [b] 1 < binMid [b] 2 := binMid_strictMono hle (by omega)
  have h124 : binMid [b] 1 < binMid [b] 24 := binMid_strictMono hle (by omega)
  have h024 : binMid [b] 0 < binMid [b] 24 := binMid_strictMono hle (by omega)
  have h02 : binMid [b] 0 < binMid [b] 2 := binMid_strictMono hle (by omega)
  have hsup : pySorted ((selectTop 3 (volProfile [b])).map Prod.fst) =
      [binMid [b] 0, binMid [b] 1, binMid [b] 24] := by
    rw [htop]
    show pySorted [binMid [b] 24, binMid [b] 0, binMid [b] 1] = _
    refine pySorted_eq_of_perm_sorted ?_ ?_
    · exact (List.Perm.swap (binMid [b] 0) (binMid [b] 24) [binMid [b] 1]).trans
        (List.Perm.cons (binMid [b] 0)
          (List.Perm.swap (binMid [b] 1) (binMid [b] 24) []))
    · refine List.sorted_cons.mpr ⟨?_, List.sorted_cons.mpr ⟨?_, List.sorted_singleton _⟩⟩
      · intro x hx
        rcases List.mem_cons.mp hx with rfl | hx2
        · exact le_of_lt h01
        · rcases List.mem_cons.mp hx2 with rfl | hx3
          · exact le_of_lt h024
          · cases hx3
      · intro x hx
        rcases List.mem_cons.mp hx with rfl | hx2
        · exact le_of_lt h124
        · cases hx2
  have hres : pySorted ((selectBot 3 (volProfile [b])).map Prod.fst) =
      [binMid [b] 0, binMid [b] 1, binMid [b] 2] := by
    rw [hbot]
    show pySorted [binMid [b] 0, binMid [b] 1, binMid [b] 2] = _
    refine pySorted_eq_of_perm_sorted (List.Perm.refl _) ?_
    refine List.sorted_cons.mpr ⟨?_, List.sorted_cons.mpr ⟨?_, List.sorted_singleton _⟩⟩
    · intro x hx
      rcases List.mem_cons.mp hx with rfl | hx2
      · exact le_of_lt h01
      · rcases List.mem_cons.mp hx2 with rfl | hx3
        · exact le_of_lt h02
        · cases hx3
    · intro x hx
      rcases List.mem_cons.mp hx with rfl | hx2
      · exact le_of_lt h12
      · cases hx2
  rw [hsup, hres]
  rfl

/-- Full output of the detector on a one-bar frame whose bar has
volume 0: every bin (the occupied bin 24 included) then has summed
volume 0, so `nlargest` and `nsmallest` with `keep='first'` both take
the first three rows, bins 0, 1 and 2. -/
theorem detect_single_zero (b : Bar) (hz : b.volume = 0) :
    detect_profit_zones ⟨[b], true, true, true, none⟩ =
      (⟨[b], true, true, true, some [rangeValue b]⟩,
       ([binMid [b] 0, binMid [b] 1, binMid [b] 2],
        [binMid [b] 0, binMid [b] 1, binMid [b] 2]), false) := by
  have hok := detect_eq_ok ⟨[b], true, true, true, none⟩ rfl rfl rfl rfl
  rw [hok]
  have hconst : ∀ x ∈ volProfile [b], x.2 = 0 := by
    intro x hx
    obtain ⟨i, hi, rfl⟩ := mem_volProfile hx
    rw [binVol_single]
    by_cases h24 : i = 24
    · rw [if_pos h24]
      exact hz
    · rw [if_neg h24]
  have htake : (volProfile [b]).take 3 =
      [(binMid [b] 0, binVol [b] 0), (binMid [b] 1, binVol [b] 1),
       (binMid [b] 2, binVol [b] 2)] := by
    unfold volProfile
    rw [← List.map_take]
    rw [show (List.range 50).take 3 = [0, 1, 2] from by decide]
    rfl
  have htop : selectTop 3 (volProfile [b]) =
      [(binMid [b] 0, binVol [b] 0), (binMid [b] 1, binVol [b] 1),
       (binMid [b] 2, binVol [b] 2)] := by
    rw [selectTop_of_const 3 _ 0 hconst, htake]
  have hbot : selectBot 3 (volProfile [b]) =
      [(binMid [b] 0, binVol [b] 0), (binMid [b] 1, binVol [b] 1),
       (binMid [b] 2, binVol [b] 2)] := by
    rw [selectBot_of_const 3 _ 0 hconst, htake]
  have hne : ([b] : List Bar) ≠ [] := by simp
  have hle := rlo_le_rhi hne
  have h01 : binMid [b] 0 < binMid [b] 1 := binMid_strictMono hle (by omega)
  have h12 : binMid [b] 1 < binMid [b] 2 := binMid_strictMono hle (by omega)
  have h02 : binMid [b] 0 < binMid [b] 2 := binMid_strictMono hle (by omega)
  have hsorted : ([binMid [b] 0, binMid [b] 1, binMid [b] 2]).Sorted (· ≤ ·) := by
    refine List.sorted_cons.mpr ⟨?_, List.sorted_cons.mpr ⟨?_, List.sorted_singleton _⟩⟩
    · intro x hx
      rcases List.mem_cons.mp hx with rfl | hx2
      · exact le_of_lt h01
      · rcases List.mem_cons.mp hx2 with rfl | hx3
        · exact le_of_lt h02
        · cases hx3
    · intro x hx
      rcases List.mem_cons.mp hx with rfl | hx2
      · exact le_of_lt h12
      · cases hx2
  have hsup : pySorted ((selectTop 3 (volProfile [b])).map Prod.fst) =
      [binMid [b] 0, binMid [b] 1, binMid [b] 2] := by
    rw [htop]
    exact pySorted_eq_of_perm_sorted (List.Perm.refl _) hsorted
  have hres : pySorted ((selectBot 3 (volProfile [b])).map Prod.fst) =
      [binMid [b] 0, binMid [b] 1, binMid [b] 2] := by
    rw [hbot]
    exact pySorted_eq_of_perm_sorted (List.Perm.refl _) hsorted
  rw [hsup, hres]
  rfl

/-! ### C6: single-bar input -/

/-- C6 counterexample: for the concrete single-bar frame `exDf1b`
exactly one bin is occupied (bin 24, holding the one bar), yet the
detector does NOT return `([that bin's midpoint], [same])`: it returns
three support and three resistance levels, because the 49 empty bins
are kept in the profile with volume 0. -/
theorem C6_counterexample :
    occupiedCount exDf1b.bars = 1 ∧
      binIdx exDf1b.bars (rangeValue exBar2) = 24 ∧
      (detect_profit_zones exDf1b).2.1 ≠
        ([binMid exDf1b.bars 24], [binMid exDf1b.bars 24]) := by
  have hv : 0 < exBar2.volume := by norm_num [exBar2]
  have hd := detect_single exBar2 hv
  refine ⟨occupiedCount_single exBar2, binIdx_single exBar2, ?_⟩
  show (detect_profit_zones ⟨[exBar2], true, true, true, none⟩).2.1 ≠ _
  rw [hd]
  intro h
  have h2 := congrArg Prod.fst h
  simp at h2

/-- C6 amended: a single-bar series (volume non-negative, as the data
model allows) has exactly one occupied bin — bin 24 of the degenerate
50-bin cut around the bar's midpoint price — but since pandas keeps
the 49 empty bins with summed volume 0, the detector returns three
levels on each side, never `([m24], [m24])`: `resistance` is always
the ascending midpoints of bins 0, 1 and 2; `support` is the
ascending midpoints of bins 0, 1 and 24 when the bar's volume is
strictly positive, and of bins 0, 1 and 2 (coinciding with
resistance) when the volume is 0, the occupied bin then tying with
every empty bin. -/
theorem C6_single_bar (b : Bar) (hv : 0 ≤ b.volume) :
    occupiedCount [b] = 1 ∧
      binIdx [b] (rangeValue b) = 24 ∧
      (∀ i : ℕ, binVol [b] i = if i = 24 then b.volume else 0) ∧
      (detect_profit_zones ⟨[b], true, true, true, none⟩).2 =
        ((if 0 < b.volume
            then [binMid [b] 0, binMid [b] 1, binMid [b] 24]
            else [binMid [b] 0, binMid [b] 1, binMid [b] 2],
          [binMid [b] 0, binMid [b] 1, binMid [b] 2]), false) := by
  refine ⟨occupiedCount_single b, binIdx_single b, binVol_single b, ?_⟩
  rcases eq_or_lt_of_le hv with hz | hp
  · rw [if_neg (by rw [← hz]; exact lt_irrefl 0), detect_single_zero b hz.symm]
  · rw [if_pos hp, detect_single b hp]

/-- Witness for C6 at the positive-volume bar `exBar2 = ⟨100, 50, 7⟩`
and at the zero-volume bar `exBar0 = ⟨100, 50, 0⟩`, exercising both
branches. -/
theorem C6_single_bar_witness :
    ((0 : ℚ) ≤ exBar2.volume ∧
      (detect_profit_zones ⟨[exBar2], true, true, true, none⟩).2 =
        ((if 0 < exBar2.volume
            then [binMid [exBar2] 0, binMid [exBar2] 1, binMid [exBar2] 24]
            else [binMid [exBar2] 0, binMid [exBar2] 1, binMid [exBar2] 2],
          [binMid [exBar2] 0, binMid [exBar2] 1, binMid [exBar2] 2]), false)) ∧
    ((0 : ℚ) ≤ exBar0.volume ∧
      (detect_profit_zones ⟨[exBar0], true, true, true, none⟩).2 =
        ((if 0 < exBar0.volume
            then [binMid [exBar0] 0, binMid [exBar0] 1, binMid [exBar0] 24]
            else [binMid [exBar0] 0, binMid [exBar0] 1, binMid [exBar0] 2],
          [binMid [exBar0] 0, binMid [exBar0] 1, binMid [exBar0] 2]), false)) :=
  ⟨⟨by norm_num [exBar2], (C6_single_bar exBar2 (by norm_num [exBar2])).2.2.2⟩,
   ⟨by norm_num [exBar0], (C6_single_bar exBar0 (by norm_num [exBar0])).2.2.2⟩⟩

/-! ### C1: which bins the levels come from -/

/-- C1 counterexample: for the concrete one-bar frame `exDf1` the only
bin containing a bar is bin 24, but the returned resistance sequence
contains the midpoint of bin 0 — a bin containing NO bars (pandas'
`observed=False` keeps empty bins with summed volume 0, and
`nsmallest` then picks them).  So `resistance` is not made of
midpoints of non-empty bins, refuting the claim as stated. -/
theorem C1_counterexample :
    binMid exDf1.bars 0 ∈ (detect_profit_zones exDf1).2.1.2 ∧
      (∀ i : ℕ, i ≠ 24 →
        exDf1.bars.filter (fun c => decide (binIdx exDf1.bars (rangeValue c) = i)) = []) ∧
      exDf1.bars.filter (fun c => decide (binIdx exDf1.bars (rangeValue c) = 24)) =
        exDf1.bars ∧
      (∀ i : ℕ, i < 50 → i ≠ 0 → binMid exDf1.bars i ≠ binMid exDf1.bars 0) := by
  have hv : 0 < exBar1.volume := by norm_num [exBar1]
  have hd := detect_single exBar1 hv
  have hne : (exDf1.bars : List Bar) ≠ [] := by simp [exDf1]
  have hle := rlo_le_rhi hne
  refine ⟨?_, ?_, ?_, ?_⟩
  · show binMid [exBar1] 0 ∈ (detect_profit_zones ⟨[exBar1], true, true, true, none⟩).2.1.2
    rw [hd]
    exact List.mem_cons_self _ _
  · intro i hi
    have hbars : exDf1.bars = [exBar1] := rfl
    show exDf1.bars.filter (fun c => decide (binIdx exDf1.bars (rangeValue c) = i)) = []
    rw [hbars, filter_single_bin exBar1 i, if_neg hi]
  · have hbars : exDf1.bars = [exBar1] := rfl
    show exDf1.bars.filter (fun c => decide (binIdx exDf1.bars (rangeValue c) = 24)) =
      exDf1.bars
    rw [hbars, filter_single_bin exBar1 24, if_pos rfl]
  · intro i _ hi0
    show binMid [exBar1] i ≠ binMid [exBar1] 0
    intro heq
    exact hi0 (binMid_inj hle heq)

/-! ### C5: cardinality of the outputs -/

/-- C5 counterexample: the concrete one-bar frame has exactly one
occupied (non-empty) bin, yet both outputs have length 3, not
`min(TOP_K, 1) = 1` — because all 50 bins survive into the profile. -/
theorem C5_counterexample :
    occupiedCount exDf1.bars = 1 ∧
      (detect_profit_zones exDf1).2.1.1.length = 3 ∧
      (detect_profit_zones exDf1).2.1.2.length = 3 := by
  have hv : 0 < exBar1.volume := by norm_num [exBar1]
  have hd := detect_single exBar1 hv
  refine ⟨occupiedCount_single exBar1, ?_, ?_⟩
  · show (detect_profit_zones ⟨[exBar1], true, true, true, none⟩).2.1.1.length = 3
    rw [hd]
    rfl
  · show (detect_profit_zones ⟨[exBar1], true, true, true, none⟩).2.1.2.length = 3
    rw [hd]
    rfl

/-! ### C1 amended and C5 amended: what the selections really are -/

/-- C1 amended: on success, `support` is the ascending sort of the
midpoints of 3 rows of the 50-row profile (empty bins included with
volume 0) whose volumes dominate every unselected row, and
`resistance` dually of 3 rows dominated by every unselected row; ties
are broken deterministically (first bin wins).  Both outputs are
ascending-sorted, as the claim says — the correction is only that the
bins are drawn from all 50 retained bins, not from non-empty bins. -/
theorem C1_top_bins (df : Frame) (hH : df.hasHigh = true) (hL : df.hasLow = true)
    (hV : df.hasVolume = true) (hB : df.bars ≠ []) :
    ∃ top bot : List (ℚ × ℚ),
      top.length = 3 ∧ bot.length = 3 ∧
      (∀ a ∈ top, a ∈ volProfile df.bars) ∧
      (∀ a ∈ bot, a ∈ volProfile df.bars) ∧
      (∀ b ∈ volProfile df.bars, b ∉ top → ∀ a ∈ top, b.2 ≤ a.2) ∧
      (∀ b ∈ volProfile df.bars, b ∉ bot → ∀ a ∈ bot, a.2 ≤ b.2) ∧
      (detect_profit_zones df).2.1.1 = pySorted (top.map Prod.fst) ∧
      (detect_profit_zones df).2.1.2 = pySorted (bot.map Prod.fst) ∧
      ((detect_profit_zones df).2.1.1).Sorted (· ≤ ·) ∧
      ((detect_profit_zones df).2.1.2).Sorted (· ≤ ·) := by
  have hB' : df.bars.isEmpty = false := by
    cases hbars : df.bars
    · exact absurd hbars hB
    · rfl
  have hok := detect_eq_ok df hH hL hB' hV
  refine ⟨selectTop 3 (volProfile df.bars), selectBot 3 (volProfile df.bars),
    ?_, ?_, ?_, ?_, ?_, ?_, ?_, ?_, ?_, ?_⟩
  · rw [selectTop_length, volProfile_length]
    decide
  · rw [selectBot_length, volProfile_length]
    decide
  · intro a ha
    exact selectTop_subset 3 _ ha
  · intro a ha
    exact selectBot_subset 3 _ ha
  · intro b hb hnot
    exact selectTop_dominates 3 _ hb hnot
  · intro b hb hnot
    exact selectBot_dominated 3 _ hb hnot
  · rw [hok]
  · rw [hok]
  · rw [hok]
    exact pySorted_sorted _
  · rw [hok]
    exact pySorted_sorted _

/-- Witness for C1 amended at the concrete one-bar frame `exDf1`. -/
theorem C1_top_bins_witness :
    ∃ top bot : List (ℚ × ℚ),
      top.length = 3 ∧ bot.length = 3 ∧
      (∀ a ∈ top, a ∈ volProfile exDf1.bars) ∧
      (∀ a ∈ bot, a ∈ volProfile exDf1.bars) ∧
      (∀ b ∈ volProfile exDf1.bars, b ∉ top → ∀ a ∈ top, b.2 ≤ a.2) ∧
      (∀ b ∈ volProfile exDf1.bars, b ∉ bot → ∀ a ∈ bot, a.2 ≤ b.2) ∧
      (detect_profit_zones exDf1).2.1.1 = pySorted (top.map Prod.fst) ∧
      (detect_profit_zones exDf1).2.1.2 = pySorted (bot.map Prod.fst) ∧
      ((detect_profit_zones exDf1).2.1.1).Sorted (· ≤ ·) ∧
      ((detect_profit_zones exDf1).2.1.2).Sorted (· ≤ ·) :=
  C1_top_bins exDf1 rfl rfl rfl (by simp [exDf1])

/-- C5 amended: the outputs always have length at most `TOP_K = 3`
(that half of the claim is right), and on success with a non-empty bar
series each has length exactly `min(TOP_K, BIN_COUNT) = 3` — not
`min(TOP_K, number of non-empty bins)`, since the 50-bin profile keeps
empty bins. -/
theorem C5_lengths (df : Frame) :
    (detect_profit_zones df).2.1.1.length ≤ 3 ∧
      (detect_profit_zones df).2.1.2.length ≤ 3 ∧
      (df.hasHigh = true → df.hasLow = true → df.hasVolume = true → df.bars ≠ [] →
        (detect_profit_zones df).2.1.1.length = 3 ∧
        (detect_profit_zones df).2.1.2.length = 3) := by
  have hok3 : df.hasHigh = true → df.hasLow = true → df.hasVolume = true → df.bars ≠ [] →
      (detect_profit_zones df).2.1.1.length = 3 ∧
      (detect_profit_zones df).2.1.2.length = 3 := by
    intro hH hL hV hB
    have hB' : df.bars.isEmpty = false := by
      cases hbars : df.bars
      · exact absurd hbars hB
      · rfl
    rw [detect_eq_ok df hH hL hB' hV]
    constructor
    · show (pySorted ((selectTop 3 (volProfile df.bars)).map Prod.fst)).length = 3
      rw [pySorted_length, List.length_map, selectTop_length, volProfile_length]
      decide
    · show (pySorted ((selectBot 3 (volProfile df.bars)).map Prod.fst)).length = 3
      rw [pySorted_length, List.length_map, selectBot_length, volProfile_length]
      decide
  have hcases : (detect_profit_zones df).2.1 = ([], []) ∨
      ((detect_profit_zones df).2.1.1.length = 3 ∧
        (detect_profit_zones df).2.1.2.length = 3) := by
    by_cases hH : df.hasHigh = true
    · by_cases hL : df.hasLow = true
      · by_cases hV : df.hasVolume = true
        · by_cases hB : df.bars = []
          · left
            have h2 := (C2_error_boundary df).2.1 hB
            exact congrArg Prod.fst h2
          · right
            exact hok3 hH hL hV hB
        · left
          have hVf : df.hasVolume = false := Bool.not_eq_true _ ▸ Bool.eq_false_iff.mpr hV
          have h2 := (C2_error_boundary df).2.2 (by rw [hH, hL, hVf]; rfl)
          exact congrArg Prod.fst h2
      · left
        have hLf : df.hasLow = false := Bool.not_eq_true _ ▸ Bool.eq_false_iff.mpr hL
        have h2 := (C2_error_boundary df).2.2 (by rw [hLf]; simp)
        exact congrArg Prod.fst h2
    · left
      have hHf : df.hasHigh = false := Bool.not_eq_true _ ▸ Bool.eq_false_iff.mpr hH
      have h2 := (C2_error_boundary df).2.2 (by rw [hHf]; simp)
      exact congrArg Prod.fst h2
  refine ⟨?_, ?_, hok3⟩
  · rcases hcases with h | h
    · rw [congrArg Prod.fst h]
      simp
    · exact h.1.le
  · rcases hcases with h | h
    · rw [congrArg Prod.snd h]
      simp
    · exact h.2.le

/-- Witness for C5 amended's success clause at `exDf1`. -/
theorem C5_lengths_witness :
    (detect_profit_zones exDf1).2.1.1.length = 3 ∧
      (detect_profit_zones exDf1).2.1.2.length = 3 :=
  (C5_lengths exDf1).2.2 rfl rfl rfl (by simp [exDf1])

/-! ### C3: the binning geometry -/

/-- C3 amended: for a non-empty bar series the profile keeps ALL 50
bins (empty ones with summed volume 0 — nothing is discarded); each
bar goes to the unique bin whose half-open interval
`(edge i, edge (i+1)]` contains its `Range` value; the minimum is
covered because the lowest edge lies strictly below it (pandas lowers
it by 0.1% of the span — so bin 0 is that much wider than the others,
which all have width span/50 when the span is positive), and when the
span is positive the minimum lands in bin 0; the representative price
of bin `i` is `(edge i + edge (i+1)) / 2`; and the volume of bin `i`
is the summed volume of the bars whose `Range` value lies in
`(edge i, edge (i+1)]`. -/
theorem C3_binning (bars : List Bar) (hB : bars ≠ []) :
    (volProfile bars).length = 50 ∧
      (∀ b ∈ bars, binIdx bars (rangeValue b) < 50 ∧
        edge bars (binIdx bars (rangeValue b)) < rangeValue b ∧
        rangeValue b ≤ edge bars (binIdx bars (rangeValue b) + 1)) ∧
      edge bars 0 < rlo bars ∧
      (rlo bars < rhi bars → binIdx bars (rlo bars) = 0) ∧
      (rlo bars < rhi bars →
        (∀ i : ℕ, 1 ≤ i →
          edge bars (i + 1) - edge bars i = (rhi bars - rlo bars) / 50) ∧
        edge bars 1 - edge bars 0 =
          (rhi bars - rlo bars) / 50 + (rhi bars - rlo bars) / 1000) ∧
      (∀ i : ℕ, binMid bars i = (edge bars i + edge bars (i + 1)) / 2) ∧
      (∀ i : ℕ, i < 50 → binVol bars i =
        ((bars.filter (fun b => decide (edge bars i < rangeValue b) &&
          decide (rangeValue b ≤ edge bars (i + 1)))).map Bar.volume).sum) := by
  have hle := rlo_le_rhi hB
  refine ⟨volProfile_length bars, ?_, edgeF_zero_lt hle, ?_, ?_, fun i => rfl, ?_⟩
  · intro b hb
    exact binIdxF_spec hle (rlo_le hb) (le_rhi hb)
  · intro hlt
    refine binIdxF_eq_of hle (le_refl _) hle (by omega) (edgeF_zero_lt hle) ?_
    show rlo bars ≤ edgeF (rlo bars) (rhi bars) 1
    rw [edgeF_nondegen hlt one_ne_zero]
    have hw : 0 < (rhi bars - rlo bars) / 50 := by
      have : 0 < rhi bars - rlo bars := sub_pos.mpr hlt
      positivity
    push_cast
    linarith
  · intro hlt
    constructor
    · intro i hi
      unfold edge
      rw [edgeF_nondegen hlt (by omega : i + 1 ≠ 0), edgeF_nondegen hlt (by omega : i ≠ 0)]
      push_cast
      ring
    · unfold edge
      rw [edgeF_nondegen hlt one_ne_zero, edgeF_nondegen_zero hlt]
      push_cast
      ring
  · intro i hi
    have hcong : ∀ b ∈ bars,
        (decide (binIdx bars (rangeValue b) = i)) =
          (decide (edge bars i < rangeValue b) &&
            decide (rangeValue b ≤ edge bars (i + 1))) := by
      intro b hb
      rw [← Bool.decide_and]
      apply decide_eq_decide.mpr
      constructor
      · intro heq
        obtain ⟨h1, h2, h3⟩ := binIdxF_spec hle (rlo_le hb) (le_rhi hb)
        rw [← heq]
        exact ⟨h2, h3⟩
      · intro hconj
        exact binIdxF_eq_of hle (rlo_le hb) (le_rhi hb) hi hconj.1 hconj.2
    unfold binVol
    rw [List.filter_congr hcong]

/-- Witness for C3 amended at the concrete seven-bar series `bars7`. -/
theorem C3_binning_witness :
    (volProfile bars7).length = 50 ∧
      (∀ b ∈ bars7, binIdx bars7 (rangeValue b) < 50 ∧
        edge bars7 (binIdx bars7 (rangeValue b)) < rangeValue b ∧
        rangeValue b ≤ edge bars7 (binIdx bars7 (rangeValue b) + 1)) ∧
      edge bars7 0 < rlo bars7 ∧
      (rlo bars7 < rhi bars7 → binIdx bars7 (rlo bars7) = 0) ∧
      (rlo bars7 < rhi bars7 →
        (∀ i : ℕ, 1 ≤ i →
          edge bars7 (i + 1) - edge bars7 i = (rhi bars7 - rlo bars7) / 50) ∧
        edge bars7 1 - edge bars7 0 =
          (rhi bars7 - rlo bars7) / 50 + (rhi bars7 - rlo bars7) / 1000) ∧
      (∀ i : ℕ, binMid bars7 i = (edge bars7 i + edge bars7 (i + 1)) / 2) ∧
      (∀ i : ℕ, i < 50 → binVol bars7 i =
        ((bars7.filter (fun b => decide (edge bars7 i < rangeValue b) &&
          decide (rangeValue b ≤ edge bars7 (i + 1)))).map Bar.volume).sum) :=
  C3_binning bars7 (by simp [bars7])

/-- C3 counterexample: in the concrete one-bar frame only one bin
contains a bar, yet the profile still has all 50 rows and it even
contains the row `(midpoint of bin 0, 0)` for bin 0, a bin holding no
bar at all; that midpoint reaches the returned resistance levels.  So
bins containing no bars are NOT discarded, refuting Step 4 of the
claim. -/
theorem C3_counterexample :
    (volProfile exDf1.bars).length = 50 ∧
      occupiedCount exDf1.bars = 1 ∧
      (binMid exDf1.bars 0, (0 : ℚ)) ∈ volProfile exDf1.bars ∧
      exDf1.bars.filter
        (fun c => decide (binIdx exDf1.bars (rangeValue c) = 0)) = [] ∧
      binMid exDf1.bars 0 ∈ (detect_profit_zones exDf1).2.1.2 := by
  have hv : 0 < exBar1.volume := by norm_num [exBar1]
  refine ⟨volProfile_length _, occupiedCount_single exBar1, ?_, ?_, ?_⟩
  · show (binMid [exBar1] 0, (0 : ℚ)) ∈ volProfile [exBar1]
    have h0 : binVol [exBar1] 0 = 0 := by
      rw [binVol_single]
      norm_num
    have hmem : (binMid [exBar1] 0, binVol [exBar1] 0) ∈ volProfile [exBar1] := by
      unfold volProfile
      exact List.mem_map_of_mem _ (List.mem_range.mpr (by omega))
    rw [h0] at hmem
    exact hmem
  · have hbars : exDf1.bars = [exBar1] := rfl
    show exDf1.bars.filter (fun c => decide (binIdx exDf1.bars (rangeValue c) = 0)) = []
    rw [hbars, filter_single_bin exBar1 0, if_neg (by omega : (0:ℕ) ≠ 24)]
  · have hd := detect_single exBar1 hv
    show binMid [exBar1] 0 ∈
      (detect_profit_zones ⟨[exBar1], true, true, true, none⟩).2.1.2
    rw [hd]
    exact List.mem_cons_self _ _

/-! ### C7: counting occupied bins in the profile -/

theorem binVol_nonneg {bars : List Bar} (hpos : ∀ b ∈ bars, 0 ≤ b.volume) (i : ℕ) :
    0 ≤ binVol bars i := by
  unfold binVol
  apply List.sum_nonneg
  intro x hx
  obtain ⟨b, hb, rfl⟩ := List.mem_map.mp hx
  exact hpos b (List.mem_filter.mp hb).1

theorem binVol_pos_iff {bars : List Bar} (hpos : ∀ b ∈ bars, 0 < b.volume) (i : ℕ) :
    0 < binVol bars i ↔
      bars.filter (fun b => decide (binIdx bars (rangeValue b) = i)) ≠ [] := by
  constructor
  · intro h hnil
    unfold binVol at h
    rw [hnil] at h
    exact lt_irrefl 0 h
  · intro hne
    unfold binVol
    apply List.sum_pos
    · intro x hx
      obtain ⟨b, hb, rfl⟩ := List.mem_map.mp hx
      exact hpos b (List.mem_filter.mp hb).1
    · intro hmap
      exact hne (List.map_eq_nil_iff.mp hmap)

theorem countP_pos_profile {bars : List Bar} (hpos : ∀ b ∈ bars, 0 < b.volume) :
    (volProfile bars).countP (fun r => decide (0 < r.2)) = occupiedCount bars := by
  unfold volProfile occupiedCount
  rw [List.countP_map, List.countP_eq_length_filter]
  congr 1
  apply List.filter_congr
  intro i _
  show decide (0 < binVol bars i) =
    decide ((bars.filter (fun b => decide (binIdx bars (rangeValue b) = i))) ≠ [])
  exact decide_eq_decide.mpr (binVol_pos_iff hpos i)

theorem countP_split : ∀ (l : List (ℚ × ℚ)) (p q : (ℚ × ℚ) → Bool),
    (∀ a ∈ l, (q a = true ↔ ¬ p a = true)) → l.countP p + l.countP q = l.length := by
  intro l
  induction l with
  | nil => intro p q _; rfl
  | cons a t ih =>
    intro p q h
    rw [List.countP_cons, List.countP_cons, List.length_cons]
    have ht := ih p q (fun x hx => h x (List.mem_cons_of_mem a hx))
    have ha := h a (List.mem_cons_self a t)
    by_cases hp : p a = true
    · have hq : q a = false := by
        cases hqa : q a
        · rfl
        · exact absurd hp (ha.mp hqa)
      rw [hp, hq]
      norm_num
      omega
    · have hp' : p a = false := by
        cases hpa : p a
        · rfl
        · exact absurd hpa hp
      have hq : q a = true := ha.mpr hp
      rw [hp', hq]
      norm_num
      omega

theorem countP_zero_profile {bars : List Bar} (hpos : ∀ b ∈ bars, 0 < b.volume) :
    (volProfile bars).countP (fun r => decide (r.2 = 0)) = 50 - occupiedCount bars := by
  have hnn : ∀ r ∈ volProfile bars, 0 ≤ r.2 := by
    intro r hr
    obtain ⟨k, _, rfl⟩ := mem_volProfile hr
    exact binVol_nonneg (fun b hb => le_of_lt (hpos b hb)) k
  have hsum := countP_split (volProfile bars)
    (fun r => decide (0 < r.2)) (fun r => decide (r.2 = 0)) ?_
  · have hlen := volProfile_length bars
    have hcp := countP_pos_profile hpos
    omega
  · intro r hr
    simp only [decide_eq_true_eq]
    constructor
    · intro h
      rw [h]
      exact lt_irrefl 0
    · intro h
      exact le_antisymm (not_lt.mp h) (hnn r hr)

/-- C7 amended: when more than `2 * TOP_K = 6` bins actually contain
bars, at least `TOP_K = 3` bins are empty, and every bar has strictly
positive volume, support and resistance share no midpoint: `nlargest`
then only picks bins of positive summed volume while `nsmallest` only
picks empty bins (volume 0), and distinct bins have distinct
midpoints.  (The claimed hypothesis alone is NOT enough — see the
counterexample, where all 50 bins are occupied with equal volumes and
the two outputs coincide completely.) -/
theorem C7_disjoint (df : Frame) (hH : df.hasHigh = true) (hL : df.hasLow = true)
    (hV : df.hasVolume = true) (hB : df.bars ≠ [])
    (hpos : ∀ b ∈ df.bars, 0 < b.volume)
    (hocc : 6 < occupiedCount df.bars) (hemp : occupiedCount df.bars ≤ 47) :
    ∀ x ∈ (detect_profit_zones df).2.1.1, x ∉ (detect_profit_zones df).2.1.2 := by
  have hB' : df.bars.isEmpty = false := by
    cases hbars : df.bars
    · exact absurd hbars hB
    · rfl
  have hok := detect_eq_ok df hH hL hB' hV
  intro x hx hx2
  rw [hok] at hx hx2
  have hx1 : x ∈ pySorted ((selectTop 3 (volProfile df.bars)).map Prod.fst) := hx
  have hx3 : x ∈ pySorted ((selectBot 3 (volProfile df.bars)).map Prod.fst) := hx2
  have hm1 := (pySorted_perm _).mem_iff.mp hx1
  have hm2 := (pySorted_perm _).mem_iff.mp hx3
  obtain ⟨a, ha, hax⟩ := List.mem_map.mp hm1
  obtain ⟨c, hc, hcx⟩ := List.mem_map.mp hm2
  have hnn : ∀ r ∈ volProfile df.bars, 0 ≤ r.2 := by
    intro r hr
    obtain ⟨k, _, rfl⟩ := mem_volProfile hr
    exact binVol_nonneg (fun b hb => le_of_lt (hpos b hb)) k
  have hpos_a : 0 < a.2 := by
    refine selectTop_pos 3 _ ?_ a ha
    rw [countP_pos_profile hpos]
    omega
  have hzero_c : c.2 = 0 := by
    refine selectBot_zero 3 _ hnn ?_ c hc
    rw [countP_zero_profile hpos]
    omega
  obtain ⟨i, hi, hae⟩ := mem_volProfile (selectTop_subset 3 _ ha)
  obtain ⟨j, hj, hce⟩ := mem_volProfile (selectBot_subset 3 _ hc)
  have hmid : binMid df.bars i = binMid df.bars j := by
    have h1 : a.1 = binMid df.bars i := by rw [hae]
    have h2 : c.1 = binMid df.bars j := by rw [hce]
    rw [← h1, ← h2, hax, hcx]
  have hij : i = j := binMid_inj (rlo_le_rhi hB) hmid
  have hva : a.2 = binVol df.bars i := by rw [hae]
  have hvc : c.2 = binVol df.bars j := by rw [hce]
  rw [hva, hij] at hpos_a
  rw [hvc] at hzero_c
  rw [hzero_c] at hpos_a
  exact lt_irrefl 0 hpos_a

/-! ### The 50-bar series hitting every bin with equal volume -/

theorem rangeValue_flat (x w : ℚ) : rangeValue ⟨x, x, w⟩ = x := by
  unfold rangeValue
  ring

theorem filter_range_eq_single : ∀ {n i : ℕ}, i < n →
    (List.range n).filter (fun j => decide (j = i)) = [i] := by
  intro n
  induction n with
  | zero => intro i h; omega
  | succ m ih =>
    intro i h
    rw [List.range_succ, List.filter_append]
    by_cases him : i = m
    · subst him
      have h1 : (List.range i).filter (fun j => decide (j = i)) = [] := by
        refine List.filter_eq_nil_iff.mpr ?_
        intro a ha
        simp only [decide_eq_true_eq]
        have := List.mem_range.mp ha
        omega
      rw [h1]
      simp
    · have h2 : i < m := by omega
      rw [ih h2]
      have h3 : [m].filter (fun j => decide (j = i)) = [] := by
        refine List.filter_eq_nil_iff.mpr ?_
        intro a ha
        simp only [List.mem_singleton] at ha
        subst ha
        simp only [decide_eq_true_eq]
        omega
      rw [h3]
      simp

theorem rangeList_bars50 :
    rangeList bars50 = (List.range 50).map (fun i => ((i : ℕ) : ℚ)) := by
  unfold rangeList bars50
  rw [List.map_map]
  refine List.map_congr_left ?_
  intro i _
  exact rangeValue_flat _ _

theorem rlo_bars50 : rlo bars50 = 0 := by
  unfold rlo
  rw [rangeList_bars50]
  have h0mem : (0 : ℚ) ∈ (List.range 50).map (fun i => ((i : ℕ) : ℚ)) := by
    refine List.mem_map.mpr ⟨0, List.mem_range.mpr (by omega), ?_⟩
    norm_num
  have hne : (List.range 50).map (fun i => ((i : ℕ) : ℚ)) ≠ [] := by
    intro h
    rw [List.map_eq_nil_iff, List.range_eq_nil] at h
    omega
  refine le_antisymm (listMin_le h0mem) ?_
  obtain ⟨j, _, hj⟩ := List.mem_map.mp (listMin_mem hne)
  rw [← hj]
  exact Nat.cast_nonneg j

theorem rhi_bars50 : rhi bars50 = 49 := by
  unfold rhi
  rw [rangeList_bars50]
  have h49mem : (49 : ℚ) ∈ (List.range 50).map (fun i => ((i : ℕ) : ℚ)) := by
    refine List.mem_map.mpr ⟨49, List.mem_range.mpr (by omega), ?_⟩
    norm_num
  have hne : (List.range 50).map (fun i => ((i : ℕ) : ℚ)) ≠ [] := by
    intro h
    rw [List.map_eq_nil_iff, List.range_eq_nil] at h
    omega
  refine le_antisymm ?_ (le_listMax h49mem)
  obtain ⟨j, hjmem, hj⟩ := List.mem_map.mp (listMax_mem hne)
  rw [← hj]
  have : j ≤ 49 := by
    have := List.mem_range.mp hjmem
    omega
  exact_mod_cast this

theorem binIdxF_cast (k : ℕ) (hk : k < 50) : binIdxF 0 49 ((k : ℕ) : ℚ) = k := by
  have hk49 : ((k : ℕ) : ℚ) ≤ 49 := by
    exact_mod_cast (by omega : k ≤ 49)
  refine binIdxF_eq_of (by norm_num) (Nat.cast_nonneg k) hk49 hk ?_ ?_
  · by_cases h0 : k = 0
    · subst h0
      rw [edgeF_nondegen_zero (by norm_num : (0:ℚ) < 49)]
      norm_num
    · rw [edgeF_nondegen (by norm_num : (0:ℚ) < 49) h0]
      have h1k : (1 : ℚ) ≤ (k : ℚ) := by
        exact_mod_cast Nat.one_le_iff_ne_zero.mpr h0
      push_cast
      linarith
  · rw [edgeF_nondegen (by norm_num : (0:ℚ) < 49) (by omega : k + 1 ≠ 0)]
    push_cast
    linarith

theorem binIdx_bars50 (k : ℕ) (hk : k < 50) : binIdx bars50 ((k : ℕ) : ℚ) = k := by
  show binIdxF (rlo bars50) (rhi bars50) ((k : ℕ) : ℚ) = k
  rw [rlo_bars50, rhi_bars50]
  exact binIdxF_cast k hk

theorem filter_bars50 (i : ℕ) (hi : i < 50) :
    bars50.filter (fun c => decide (binIdx bars50 (rangeValue c) = i)) =
      [⟨(i : ℚ), (i : ℚ), 1⟩] := by
  show (((List.range 50).map (fun j : ℕ => (⟨(j : ℚ), (j : ℚ), 1⟩ : Bar))).filter
    (fun c => decide (binIdx bars50 (rangeValue c) = i))) = _
  rw [List.filter_map]
  have hcong : ∀ j ∈ List.range 50,
      ((fun c => decide (binIdx bars50 (rangeValue c) = i)) ∘
        (fun j : ℕ => (⟨(j : ℚ), (j : ℚ), 1⟩ : Bar))) j = decide (j = i) := by
    intro j hj
    show decide (binIdx bars50 (rangeValue ⟨(j : ℚ), (j : ℚ), 1⟩) = i) = decide (j = i)
    rw [rangeValue_flat, binIdx_bars50 j (List.mem_range.mp hj)]
  rw [List.filter_congr hcong, filter_range_eq_single hi]
  rfl

theorem binVol_bars50 (i : ℕ) (hi : i < 50) : binVol bars50 i = 1 := by
  unfold binVol
  rw [filter_bars50 i hi]
  simp

theorem occupiedCount_bars50 : occupiedCount bars50 = 50 := by
  unfold occupiedCount
  have hall : ∀ i ∈ List.range 50,
      (decide ((bars50.filter
        (fun c => decide (binIdx bars50 (rangeValue c) = i))) ≠ [])) = true := by
    intro i hi
    rw [filter_bars50 i (List.mem_range.mp hi)]
    simp
  rw [List.filter_eq_self.mpr hall, List.length_range]

theorem volProfile_bars50 :
    volProfile bars50 = (List.range 50).map (fun i => (binMid bars50 i, (1 : ℚ))) := by
  unfold volProfile
  refine List.map_congr_left ?_
  intro i hi
  rw [binVol_bars50 i (List.mem_range.mp hi)]

/-- C7 counterexample: all 50 bins of the 50-bar frame `exDf50` are
occupied (so the number of non-empty bins, 50, exceeds `2 * TOP_K`),
every bin has the same summed volume 1, and `nlargest`/`nsmallest`
with the `keep='first'` tie rule then both pick bins 0, 1, 2 — so
support and resistance coincide entirely instead of being disjoint. -/
theorem C7_counterexample :
    occupiedCount exDf50.bars = 50 ∧
      (detect_profit_zones exDf50).2.1.1 = (detect_profit_zones exDf50).2.1.2 ∧
      (detect_profit_zones exDf50).2.1.1 ≠ [] := by
  have hBne : bars50 ≠ [] := by
    unfold bars50
    intro h
    rw [List.map_eq_nil_iff, List.range_eq_nil] at h
    omega
  have hB' : exDf50.bars.isEmpty = false := by
    cases hbars : exDf50.bars
    · exact absurd hbars hBne
    · rfl
  have hok := detect_eq_ok exDf50 rfl rfl hB' rfl
  have hconst : ∀ x ∈ volProfile bars50, x.2 = 1 := by
    intro x hx
    obtain ⟨i, hi, rfl⟩ := mem_volProfile hx
    exact binVol_bars50 i hi
  have htop : selectTop 3 (volProfile bars50) =
      [(binMid bars50 0, (1:ℚ)), (binMid bars50 1, (1:ℚ)), (binMid bars50 2, (1:ℚ))] := by
    rw [selectTop_of_const 3 _ 1 hconst, volProfile_bars50]
    rw [← List.map_take]
    have h3 : (List.range 50).take 3 = [0, 1, 2] := by decide
    rw [h3]
    rfl
  have hbot : selectBot 3 (volProfile bars50) =
      [(binMid bars50 0, (1:ℚ)), (binMid bars50 1, (1:ℚ)), (binMid bars50 2, (1:ℚ))] := by
    rw [selectBot_of_const 3 _ 1 hconst, volProfile_bars50]
    rw [← List.map_take]
    have h3 : (List.range 50).take 3 = [0, 1, 2] := by decide
    rw [h3]
    rfl
  have hle := rlo_le_rhi hBne
  have hsorted : ([binMid bars50 0, binMid bars50 1, binMid bars50 2]).Sorted (· ≤ ·) := by
    have h01 : binMid bars50 0 < binMid bars50 1 := binMid_strictMono hle (by omega)
    have h12 : binMid bars50 1 < binMid bars50 2 := binMid_strictMono hle (by omega)
    have h02 : binMid bars50 0 < binMid bars50 2 := binMid_strictMono hle (by omega)
    refine List.sorted_cons.mpr ⟨?_, List.sorted_cons.mpr ⟨?_, List.sorted_singleton _⟩⟩
    · intro x hx
      rcases List.mem_cons.mp hx with rfl | hx2
      · exact le_of_lt h01
      · rcases List.mem_cons.mp hx2 with rfl | hx3
        · exact le_of_lt h02
        · cases hx3
    · intro x hx
      rcases List.mem_cons.mp hx with rfl | hx2
      · exact le_of_lt h12
      · cases hx2
  have hsup : pySorted ((selectTop 3 (volProfile bars50)).map Prod.fst) =
      [binMid bars50 0, binMid bars50 1, binMid bars50 2] := by
    rw [htop]
    exact pySorted_eq_of_perm_sorted (List.Perm.refl _) hsorted
  have hres : pySorted ((selectBot 3 (volProfile bars50)).map Prod.fst) =
      [binMid bars50 0, binMid bars50 1, binMid bars50 2] := by
    rw [hbot]
    exact pySorted_eq_of_perm_sorted (List.Perm.refl _) hsorted
  refine ⟨occupiedCount_bars50, ?_, ?_⟩
  · rw [hok]
    show pySorted ((selectTop 3 (volProfile bars50)).map Prod.fst) =
      pySorted ((selectBot 3 (volProfile bars50)).map Prod.fst)
    rw [hsup, hres]
  · rw [hok]
    show pySorted ((selectTop 3 (volProfile bars50)).map Prod.fst) ≠ []
    rw [hsup]
    simp

/-! ### The seven-bar series: seven occupied bins out of fifty -/

theorem rangeList_bars7 : rangeList bars7 = [0, 7, 14, 21, 28, 35, 42] := by
  unfold rangeList bars7
  simp only [List.map_cons, List.map_nil, rangeValue_flat]

theorem rlo_bars7 : rlo bars7 = 0 := by
  unfold rlo
  rw [rangeList_bars7]
  have hne : ([0, 7, 14, 21, 28, 35, 42] : List ℚ) ≠ [] := by
    intro h
    exact List.noConfusion h
  have h0 : (0 : ℚ) ∈ ([0, 7, 14, 21, 28, 35, 42] : List ℚ) :=
    List.mem_cons_self _ _
  refine le_antisymm (listMin_le h0) ?_
  have hm := listMin_mem hne
  simp only [List.mem_cons, List.not_mem_nil, or_false] at hm
  rcases hm with h | h | h | h | h | h | h <;> rw [h] <;> norm_num

theorem rhi_bars7 : rhi bars7 = 42 := by
  unfold rhi
  rw [rangeList_bars7]
  have hne : ([0, 7, 14, 21, 28, 35, 42] : List ℚ) ≠ [] := by
    intro h
    exact List.noConfusion h
  have h42 : (42 : ℚ) ∈ ([0, 7, 14, 21, 28, 35, 42] : List ℚ) := by
    norm_num
  refine le_antisymm ?_ (le_listMax h42)
  have hm := listMax_mem hne
  simp only [List.mem_cons, List.not_mem_nil, or_false] at hm
  rcases hm with h | h | h | h | h | h | h <;> rw [h] <;> norm_num

theorem binIdx_bars7_eq (v : ℚ) : binIdx bars7 v = binIdxF 0 42 v := by
  show binIdxF (rlo bars7) (rhi bars7) v = _
  rw [rlo_bars7, rhi_bars7]

theorem binIdx_bars7_v0 : binIdx bars7 (0 : ℚ) = 0 := by
  rw [binIdx_bars7_eq]
  refine binIdxF_eq_of (by norm_num) (by norm_num) (by norm_num) (by omega) ?_ ?_
  · rw [show edgeF 0 42 0 = 0 - (42 - 0) / 1000 from edgeF_nondegen_zero (by norm_num)]
    norm_num
  · rw [edgeF_nondegen (by norm_num : (0:ℚ) < 42) (by omega : (0:ℕ) + 1 ≠ 0)]
    push_cast
    norm_num

theorem binIdx_bars7_v7 : binIdx bars7 (7 : ℚ) = 8 := by
  rw [binIdx_bars7_eq]
  refine binIdxF_eq_of (by norm_num) (by norm_num) (by norm_num) (by omega) ?_ ?_
  · rw [edgeF_nondegen (by norm_num : (0:ℚ) < 42) (by omega : (8:ℕ) ≠ 0)]
    push_cast
    norm_num
  · rw [edgeF_nondegen (by norm_num : (0:ℚ) < 42) (by omega : (8:ℕ) + 1 ≠ 0)]
    push_cast
    norm_num

theorem binIdx_bars7_v14 : binIdx bars7 (14 : ℚ) = 16 := by
  rw [binIdx_bars7_eq]
  refine binIdxF_eq_of (by norm_num) (by norm_num) (by norm_num) (by omega) ?_ ?_
  · rw [edgeF_nondegen (by norm_num : (0:ℚ) < 42) (by omega : (16:ℕ) ≠ 0)]
    push_cast
    norm_num
  · rw [edgeF_nondegen (by norm_num : (0:ℚ) < 42) (by omega : (16:ℕ) + 1 ≠ 0)]
    push_cast
    norm_num

theorem binIdx_bars7_v21 : binIdx bars7 (21 : ℚ) = 24 := by
  rw [binIdx_bars7_eq]
  refine binIdxF_eq_of (by norm_num) (by norm_num) (by norm_num) (by omega) ?_ ?_
  · rw [edgeF_nondegen (by norm_num : (0:ℚ) < 42) (by omega : (24:ℕ) ≠ 0)]
    push_cast
    norm_num
  · rw [edgeF_nondegen (by norm_num : (0:ℚ) < 42) (by omega : (24:ℕ) + 1 ≠ 0)]
    push_cast
    norm_num

theorem binIdx_bars7_v28 : binIdx bars7 (28 : ℚ) = 33 := by
  rw [binIdx_bars7_eq]
  refine binIdxF_eq_of (by norm_num) (by norm_num) (by norm_num) (by omega) ?_ ?_
  · rw [edgeF_nondegen (by norm_num : (0:ℚ) < 42) (by omega : (33:ℕ) ≠ 0)]
    push_cast
    norm_num
  · rw [edgeF_nondegen (by norm_num : (0:ℚ) < 42) (by omega : (33:ℕ) + 1 ≠ 0)]
    push_cast
    norm_num

theorem binIdx_bars7_v35 : binIdx bars7 (35 : ℚ) = 41 := by
  rw [binIdx_bars7_eq]
  refine binIdxF_eq_of (by norm_num) (by norm_num) (by norm_num) (by omega) ?_ ?_
  · rw [edgeF_nondegen (by norm_num : (0:ℚ) < 42) (by omega : (41:ℕ) ≠ 0)]
    push_cast
    norm_num
  · rw [edgeF_nondegen (by norm_num : (0:ℚ) < 42) (by omega : (41:ℕ) + 1 ≠ 0)]
    push_cast
    norm_num

theorem binIdx_bars7_v42 : binIdx bars7 (42 : ℚ) = 49 := by
  rw [binIdx_bars7_eq]
  refine binIdxF_eq_of (by norm_num) (by norm_num) (by norm_num) (by omega) ?_ ?_
  · rw [edgeF_nondegen (by norm_num : (0:ℚ) < 42) (by omega : (49:ℕ) ≠ 0)]
    push_cast
    norm_num
  · rw [edgeF_nondegen (by norm_num : (0:ℚ) < 42) (by omega : (49:ℕ) + 1 ≠ 0)]
    push_cast
    norm_num

theorem occupiedCount_bars7 : occupiedCount bars7 = 7 := by
  unfold occupiedCount
  have hcong : ∀ i ∈ List.range 50,
      (decide ((bars7.filter
          (fun b => decide (binIdx bars7 (rangeValue b) = i))) ≠ [])) =
        (decide (i = 0 ∨ i = 8 ∨ i = 16 ∨ i = 24 ∨ i = 33 ∨ i = 41 ∨ i = 49)) := by
    intro i hi
    have hi' : i < 50 := List.mem_range.mp hi
    have hb7 : bars7.filter (fun b => decide (binIdx bars7 (rangeValue b) = i)) =
        ([⟨0, 0, 1⟩, ⟨7, 7, 1⟩, ⟨14, 14, 1⟩, ⟨21, 21, 1⟩,
          ⟨28, 28, 1⟩, ⟨35, 35, 1⟩, ⟨42, 42, 1⟩] : List Bar).filter
          (fun b => decide (binIdx bars7 (rangeValue b) = i)) := rfl
    rw [hb7]
    simp only [List.filter_cons, List.filter_nil, rangeValue_flat,
      binIdx_bars7_v0, binIdx_bars7_v7, binIdx_bars7_v14, binIdx_bars7_v21,
      binIdx_bars7_v28, binIdx_bars7_v35, binIdx_bars7_v42]
    interval_cases i <;> decide
  rw [List.filter_congr hcong]
  decide

theorem C7_disjoint_witness :
    exDf7.hasHigh = true ∧ exDf7.hasLow = true ∧ exDf7.hasVolume = true ∧
      exDf7.bars ≠ [] ∧ (∀ b ∈ exDf7.bars, 0 < b.volume) ∧
      6 < occupiedCount exDf7.bars ∧ occupiedCount exDf7.bars ≤ 47 ∧
      ∀ x ∈ (detect_profit_zones exDf7).2.1.1, x ∉ (detect_profit_zones exDf7).2.1.2 := by
  have hocc : occupiedCount exDf7.bars = 7 := occupiedCount_bars7
  have hB : exDf7.bars ≠ [] := by
    intro h
    exact List.noConfusion h
  have hpos : ∀ b ∈ exDf7.bars, 0 < b.volume := by
    intro b hb
    have hb' : b ∈ ([⟨0, 0, 1⟩, ⟨7, 7, 1⟩, ⟨14, 14, 1⟩, ⟨21, 21, 1⟩,
        ⟨28, 28, 1⟩, ⟨35, 35, 1⟩, ⟨42, 42, 1⟩] : List Bar) := hb
    simp only [List.mem_cons, List.not_mem_nil, or_false] at hb'
    rcases hb' with rfl | rfl | rfl | rfl | rfl | rfl | rfl <;>
      exact (by norm_num : (0 : ℚ) < 1)
  exact ⟨rfl, rfl, rfl, hB, hpos, by omega, by omega,
    C7_disjoint exDf7 rfl rfl rfl hB hpos (by omega) (by omega)⟩
